import Mathlib

/-!
Verification of the unraid-recovery-toolkit core against its specification.

The Python sources are shallowly embedded:
 * `recovery_plan.py`  — classifier FOUND/BACKUP/REDOWNLOAD/MISSING;
 * `recovery_restore.py` — verify/restore step with `safe_join` traversal guard;
 * `radarr_deleted.py` / `sonarr_deleted.py` — paginated history scan,
   deletion extraction and path normalization.

Filesystems and network feeds are modelled as explicit oracles
(functions passed as parameters); machine-level I/O is out of scope.
-/

/-! ## Basic string helpers shared by the Python sources -/

/-- Embedding of Python `str.startswith(p)` at the character-list level. -/
def strStartsWith (s p : String) : Bool :=
  p.data.isPrefixOf s.data

/-- Embedding of Python `str.endswith("/")`. -/
def strEndsWithSlash (s : String) : Bool :=
  s.data.getLast? = some '/'

/-- Embedding of Python `str.strip()`: drop leading and trailing whitespace. -/
def pyStrip (s : String) : String :=
  String.mk (((s.data.dropWhile Char.isWhitespace).reverse.dropWhile Char.isWhitespace).reverse)

/-- Embedding of `os.path.join(a, b)` for POSIX paths (two arguments, as used
in the sources): an absolute `b` replaces `a`; otherwise a single `/` is
inserted unless `a` is empty or already ends in `/`. -/
def pyJoin (a b : String) : String :=
  if strStartsWith b "/" then b
  else if a = "" ∨ strEndsWithSlash a then a ++ b
  else a ++ "/" ++ b

/-- Embedding of Python `str.split(sep)` (single-character separator),
accumulating the current segment in reverse.  Matches Python in yielding
empty segments for adjacent separators and at the ends. -/
def splitCharAux (sep : Char) : List Char → List Char → List (List Char)
  | [], acc => [acc.reverse]
  | c :: cs, acc =>
    if c = sep then acc.reverse :: splitCharAux sep cs []
    else splitCharAux sep cs (c :: acc)

/-- Embedding of Python `str.split(sep)` on character lists. -/
def splitChar (sep : Char) (cs : List Char) : List (List Char) :=
  splitCharAux sep cs []

/-- Embedding of `"/".join(segs)` on character lists. -/
def joinSegs : List (List Char) → List Char
  | [] => []
  | [s] => s
  | s :: rest => s ++ '/' :: joinSegs rest

/-- One step of `posixpath.normpath`'s component scan: skip `''` and `'.'`,
append ordinary components, resolve `'..'` against the accumulator. -/
def normStep (initialSlashes : Nat) (acc : List (List Char)) (comp : List Char) : List (List Char) :=
  if comp = [] ∨ comp = ['.'] then acc
  else if comp ≠ ['.', '.'] ∨ (initialSlashes = 0 ∧ acc = []) ∨
      (acc ≠ [] ∧ acc.getLast? = some ['.', '.']) then
    acc ++ [comp]
  else if acc ≠ [] then acc.dropLast
  else acc

/-- Embedding of `posixpath.normpath`. -/
def normpath (path : String) : String :=
  if path = "" then "."
  else
    let cs := path.data
    let k : Nat :=
      if strStartsWith path "/" then
        if strStartsWith path "//" ∧ ¬ strStartsWith path "///" then 2 else 1
      else 0
    let comps := (splitChar '/' cs).foldl (normStep k) []
    let res := List.replicate k '/' ++ joinSegs comps
    if res = [] then "." else String.mk res

/-- Embedding of `posixpath.abspath` with the process working directory made
an explicit parameter `cwd`. -/
def pyAbspath (cwd p : String) : String :=
  if strStartsWith p "/" then normpath p else normpath (pyJoin cwd p)

/-- Embedding of `recovery_restore.safe_join`: join `root`+`rel`, normalize,
and require the result to stay within `root`; a raised `ValueError` becomes
`Except.error`. -/
def safeJoin (cwd root rel : String) : Except String String :=
  let full := normpath (pyJoin root rel)
  let rootAbs := pyAbspath cwd root
  let fullAbs := pyAbspath cwd full
  if fullAbs = rootAbs ∨ strStartsWith fullAbs (rootAbs ++ "/") then Except.ok fullAbs
  else Except.error ("Unsafe path outside root: " ++ rel)

example : normpath "/restore/../../etc/passwd" = "/etc/passwd" := by decide
example : normpath "/a//b/./c/.." = "/a/b" := by decide
example : normpath "" = "." := by decide
example : normpath "//x" = "//x" := by decide
example : pyJoin "/a" "b" = "/a/b" := by decide
example : safeJoin "/work" "/restore" "../../etc/passwd" =
    Except.error "Unsafe path outside root: ../../etc/passwd" := by rfl
example : safeJoin "/work" "/restore" "tv/a.mkv" = Except.ok "/restore/tv/a.mkv" := by rfl

/-! ## recovery_plan.py — FOUND / BACKUP / REDOWNLOAD / MISSING classifier -/

/-- Embedding of the `while folder.endswith("/"): folder = folder[:-1]` loop
from `folder_matcher`. -/
def stripTrailingSlashes (f : String) : String :=
  String.mk ((f.data.reverse.dropWhile (· = '/')).reverse)

/-- Embedding of `folder_matcher` from `recovery_plan.py` /
`recovery_restore.py`: `None` matches everything; otherwise a case-sensitive
component-boundary match (`path == folder or path.startswith(folder + "/")`). -/
def folderMatcher (folder : Option String) (p : String) : Bool :=
  match folder with
  | none => true
  | some f0 =>
    let f := stripTrailingSlashes f0
    p = f || strStartsWith p (f ++ "/")

/-- Embedding of `top_level_component`: the text before the first `/`
(`relpath.split("/", 1)[0]`). -/
def topLevelComponent (relpath : String) : String :=
  String.mk (relpath.data.takeWhile (· ≠ '/'))

/-- The four categories of `recovery_plan.py`. -/
inductive PlanCat
  | found
  | backup
  | redownload
  | missing
  deriving DecidableEq

/-- Embedding of the per-line body of `recovery_plan.main`'s scan loop.
`fsE` is the filesystem oracle standing for `os.path.exists`.  Returns
`none` for a blank line or one rejected by the folder filter, otherwise the
single category the line is written to. -/
def planProcessLine (fsE : String → Bool) (basePath : String)
    (backupSet deletedSet : List String) (folder : Option String)
    (line : String) : Option PlanCat :=
  let s := pyStrip line
  if s = "" then none
  else if ¬ folderMatcher folder s then none
  else if fsE (pyJoin basePath s) then some PlanCat.found
  else if topLevelComponent s ∈ backupSet then some PlanCat.backup
  else if s ∈ deletedSet then some PlanCat.redownload
  else some PlanCat.missing

/-- Exit-code model of `recovery_plan.main` after the configuration guards:
`sys.exit(2)` when the input has no lines at all, `sys.exit(2)` when no line
survives the blank/folder filters (`n_read == 0`), implicit exit `0`
otherwise. -/
def planMainExit (folder : Option String) (lines : List String) : Nat :=
  if lines.length = 0 then 2
  else if lines.countP (fun l => pyStrip l ≠ "" ∧ folderMatcher folder (pyStrip l) = true) = 0 then 2
  else 0

example :
    planProcessLine (fun p => p = "/mnt/user/tv/B/b.mkv") "/mnt/user" ["tv"] []
      none "tv/B/b.mkv" = some PlanCat.found := by decide
example :
    planProcessLine (fun _ => false) "/mnt/user" ["tv"] ["movies/A/a.mkv"]
      none "movies/A/a.mkv" = some PlanCat.redownload := by decide
example :
    planProcessLine (fun _ => false) "/mnt/user" ["tv"] ["movies/A/a.mkv"]
      none "tv/B/b.mkv" = some PlanCat.backup := by decide
example : planMainExit (some "tv") ["movies/a.mkv"] = 2 := by decide

/-! ## recovery_restore.py — verify + restore executor

The destination filesystem is a list of `(path, isDir)` entries; the archive
is a read-only oracle `String → Option Bool` (`none` = absent, `some true` =
directory, `some false` = regular file). -/

/-- Destination-filesystem state: existing paths with a directory flag. -/
abbrev DestFS : Type := List (String × Bool)

/-- `os.path.exists` on the destination state. -/
def destExists (p : String) (st : DestFS) : Bool :=
  st.any (fun e => e.1 = p)

/-- Embedding of `posixpath.dirname`. -/
def pyDirname (p : String) : String :=
  let cs := p.data
  match cs.reverse.findIdx? (· = '/') with
  | none => ""
  | some k =>
    let head := cs.take (cs.length - k)
    if head.all (· = '/') then String.mk head
    else String.mk ((head.reverse.dropWhile (· = '/')).reverse)

/-- The directory chain `os.makedirs(d)` creates: every proper prefix of `d`
ending just before a `/`, shallowest first, then `d` itself. -/
def pathAncestors (d : String) : List String :=
  ((List.range d.data.length).filterMap (fun i =>
    if d.data.getD i ' ' = '/' ∧ 0 < i then some (String.mk (d.data.take i)) else none))
    ++ [d]

/-- Embedding of `os.makedirs(d, exist_ok=True)` over the ancestor chain:
creating on top of an existing regular file raises (returns `false`), after
having created the shallower directories; otherwise all components become
directories. -/
def pyMakedirsGo : List String → DestFS → Bool × DestFS
  | [], st => (true, st)
  | q :: rest, st =>
    if st.any (fun e => e.1 = q ∧ e.2 = false) then (false, st)
    else pyMakedirsGo rest ((q, true) :: st)

/-- `os.makedirs(d, exist_ok=True)` on the destination state. -/
def pyMakedirs (d : String) (st : DestFS) : Bool × DestFS :=
  pyMakedirsGo (pathAncestors d) st

/-- Per-item outcome of the restore loop in `recovery_restore.main`
(restore mode, i.e. `--restore-path` given). -/
inductive ROutcome
  | blank
  | filtered
  | missing
  | skipped
  | okCopy (dst : String)
  | errorR
  deriving DecidableEq

/-- Static configuration of one `recovery_restore.py` run: the archive
oracle, the roots, the working directory (for `os.path.abspath`), the
`--strict-files` flag and the `--folder` filter. -/
structure REnv where
  arch : String → Option Bool
  archiveRoot : String
  restoreRoot : String
  cwd : String
  strict : Bool
  folder : Option String

/-- The archive source path `classify_line` computes for a stripped line:
`os.path.normpath(os.path.join(root, s))`. -/
def archSrc (env : REnv) (s : String) : String :=
  normpath (pyJoin env.archiveRoot s)

/-- The existence test of `classify_line`: `os.path.isfile(src)` under
`--strict-files`, else `os.path.exists(src)`. -/
def srcOk (env : REnv) (s : String) : Bool :=
  if env.strict then decide (env.arch (archSrc env s) = some false)
  else (env.arch (archSrc env s)).isSome

/-- The `makedirs` / exists-skip / dir-skip / `copy2` phase of the restore
block, entered with the `safe_join`-validated destination `dst`. -/
def restoreCopyPhase (env : REnv) (st : DestFS) (s dst : String) : ROutcome × DestFS :=
  match pyMakedirs (pyDirname dst) st with
  | (false, st1) => (ROutcome.errorR, st1)
  | (true, st1) =>
    if destExists dst st1 then (ROutcome.skipped, st1)
    else if env.arch (archSrc env s) = some true then (ROutcome.skipped, st1)
    else (ROutcome.okCopy dst, (dst, false) :: st1)

/-- The `try: dst = safe_join(...) ...` block: a raised `ValueError` is
recorded as an error item. -/
def restoreAttempt (env : REnv) (st : DestFS) (s : String) : ROutcome × DestFS :=
  match safeJoin env.cwd env.restoreRoot s with
  | Except.error _ => (ROutcome.errorR, st)
  | Except.ok dst => restoreCopyPhase env st s dst

/-- Embedding of one iteration of the restore-mode loop of
`recovery_restore.main`: strip, filter, `classify_line` against the archive,
then `safe_join` → `makedirs` → exists-skip / dir-skip / `copy2`.  Any
exception in the restore block is recorded as `errorR` (`r_err`). -/
def restoreStep (env : REnv) (st : DestFS) (line : String) : ROutcome × DestFS :=
  if pyStrip line = "" then (ROutcome.blank, st)
  else if ¬ folderMatcher env.folder (pyStrip line) then (ROutcome.filtered, st)
  else if srcOk env (pyStrip line) then restoreAttempt env st (pyStrip line)
  else (ROutcome.missing, st)

theorem restoreAttempt_error (env : REnv) (st : DestFS) (s e : String)
    (h : safeJoin env.cwd env.restoreRoot s = Except.error e) :
    restoreAttempt env st s = (ROutcome.errorR, st) := by
  unfold restoreAttempt
  rw [h]

theorem restoreAttempt_ok (env : REnv) (st : DestFS) (s dst : String)
    (h : safeJoin env.cwd env.restoreRoot s = Except.ok dst) :
    restoreAttempt env st s = restoreCopyPhase env st s dst := by
  unfold restoreAttempt
  rw [h]

theorem restoreCopyPhase_mkFalse (env : REnv) (st st1 : DestFS) (s dst : String)
    (h : pyMakedirs (pyDirname dst) st = (false, st1)) :
    restoreCopyPhase env st s dst = (ROutcome.errorR, st1) := by
  unfold restoreCopyPhase
  rw [h]

theorem restoreCopyPhase_mkTrue (env : REnv) (st st1 : DestFS) (s dst : String)
    (h : pyMakedirs (pyDirname dst) st = (true, st1)) :
    restoreCopyPhase env st s dst =
      (if destExists dst st1 then (ROutcome.skipped, st1)
       else if env.arch (archSrc env s) = some true then (ROutcome.skipped, st1)
       else (ROutcome.okCopy dst, (dst, false) :: st1)) := by
  unfold restoreCopyPhase
  rw [h]

/-- The whole restore loop over the input lines. -/
def runRestore (env : REnv) (st : DestFS) : List String → List ROutcome × DestFS
  | [] => ([], st)
  | l :: ls =>
    let r := restoreStep env st l
    let rest := runRestore env r.2 ls
    (r.1 :: rest.1, rest.2)

/-- Whether an outcome is a successful copy. -/
def isOkCopy : ROutcome → Bool
  | ROutcome.okCopy _ => true
  | _ => false

example :
    (restoreStep
      ⟨fun s => if s = "/arch/a.txt" then some false else none,
       "/arch", "/dst", "/", false, none⟩ [] "a.txt").1
    = ROutcome.okCopy "/dst/a.txt" := by decide
example :
    (restoreStep
      ⟨fun s => if s = "/arch/d" then some true else none,
       "/arch", "/dst", "/", false, none⟩ [] "d").1
    = ROutcome.skipped := by decide
example :
    (restoreStep
      ⟨fun s => if s = "/arch/a.txt" then some false else none,
       "/arch", "/dst", "/", false, none⟩ [("/dst/a.txt", false), ("/dst", true)] "a.txt").1
    = ROutcome.skipped := by decide

/-! ## radarr_deleted.py / sonarr_deleted.py — path normalization -/

/-- Embedding of `p.replace("\\", "/")` on character lists. -/
def sepReplace (cs : List Char) : List Char :=
  cs.map (fun c => if c = '\\' then '/' else c)

/-- Embedding of `split_path_anysep`: replace `\` by `/`, split on `/`,
drop empty segments. -/
def pathSegs (p : String) : List (List Char) :=
  (splitChar '/' (sepReplace p.data)).filter (fun s => s ≠ [])

/-- Embedding of Python `str.lower()` on one path segment. -/
def lowerSeg (s : List Char) : List Char :=
  s.map Char.toLower

/-- Embedding of Python `str.lower()` on a string. -/
def pyLower (s : String) : String :=
  String.mk (s.data.map Char.toLower)

/-- The branch chain of `normalize_root_prefix` that strips known mount
roots (`mnt/<user>/<root>`, `<root>/...`, `<x>/<root>/...`).  `roots` is
the per-tool set (`{"movies","films"}` or `{"tv","shows"}`). -/
def stripKnownRoots (roots : List (List Char)) (segs : List (List Char)) : List (List Char) :=
  let lowers := segs.map lowerSeg
  if lowers.headD [] ∈ ["mnt".data, "data".data, "pool".data] ∧ 3 ≤ lowers.length ∧
      lowers.getD 2 [] ∈ roots then segs.drop 2
  else if lowers.headD [] ∈ roots then segs
  else if 2 ≤ lowers.length ∧ lowers.getD 1 [] ∈ roots then segs.drop 1
  else segs

/-- Embedding of `normalize_root_prefix`.  `none` models the `IndexError`
that `segs[0] = canonical` would raise on an empty list (shown unreachable
below); the canonical root is `movies` for Radarr and `tv` for Sonarr. -/
def normalizeRoot (roots : List (List Char)) (canonical : List Char) (p : String) : Option String :=
  let segs := pathSegs p
  if segs = [] then some p
  else
    match stripKnownRoots roots segs with
    | [] => none
    | _ :: rest => some (String.mk (joinSegs (canonical :: rest)))

/-- `normalize_root_prefix` of `radarr_deleted.py`. -/
def radarrNormalize (p : String) : Option String :=
  normalizeRoot ["movies".data, "films".data] "movies".data p

/-- `normalize_root_prefix` of `sonarr_deleted.py`. -/
def sonarrNormalize (p : String) : Option String :=
  normalizeRoot ["tv".data, "shows".data] "tv".data p

example : radarrNormalize "/mnt/user/movies/A/a.mkv" = some "movies/A/a.mkv" := by decide
example : radarrNormalize "music/song.mp3" = some "movies/song.mp3" := by decide
example : sonarrNormalize "\\data\\media\\TV\\S\\e.mkv" = some "tv/S/e.mkv" := by decide
example : radarrNormalize "///" = some "///" := by decide

/-! ## radarr_deleted.py / sonarr_deleted.py — history scan -/

/-- One record of the `/api/v3/history` feed, with only the fields the
scan reads.  Optional fields model absent JSON keys. -/
structure HistoryRecord where
  date : Option String := none
  eventDate : Option String := none
  eventType : String := ""
  movieId : Option Int := none
  movieInnerId : Option Int := none
  episodeId : Option Int := none
  dataPath : Option String := none
  sourceTitle : Option String := none
  dataMovieFilePath : Option String := none
  movieFilePath : Option String := none
  episodeFilePath : Option String := none
  deriving DecidableEq

/-- Python truthiness of an optional string (`None` and `""` are falsy). -/
def strOTruthy : Option String → Bool
  | some s => s ≠ ""
  | none => false

/-- Python `a or b` on optional strings. -/
def pyOrS (a b : Option String) : Option String :=
  if strOTruthy a then a else b

/-- Python `a or b` on optional integers (`None` and `0` are falsy). -/
def pyOrI (a b : Option Int) : Option Int :=
  match a with
  | some n => if n ≠ 0 then some n else b
  | none => b

/-- The `if movie_id:` / `if episode_id:` truthiness guard. -/
def intTruthyO : Option Int → Option Int
  | some n => if n ≠ 0 then some n else none
  | none => none

/-- A Python `x or y or ... or ""` chain over optional strings: the first
truthy value, else `""`. -/
def firstTruthyS : List (Option String) → String
  | [] => ""
  | some s :: rest => if s ≠ "" then s else firstTruthyS rest
  | none :: rest => firstTruthyS rest

/-- Embedding of `date_str.replace("Z", "+00:00")`. -/
def replaceZ (s : String) : String :=
  String.mk (s.data.foldr
    (fun c acc => if c = 'Z' then '+' :: '0' :: '0' :: ':' :: '0' :: '0' :: acc else c :: acc) [])

/-- `rec.get("date") or rec.get("eventDate")`. -/
def recDateStr (rec : HistoryRecord) : Option String :=
  pyOrS rec.date rec.eventDate

/-- Scan parameters: the UTC window, the timestamp parser
(`datetime.fromisoformat`, an oracle), the exact event-type string the
code compares against, and the per-tool id/path extraction chains and
path normalizer. -/
structure ScanP where
  startT : Int
  endT : Int
  parseDate : String → Option Int
  targetType : String
  getIdRaw : HistoryRecord → Option Int
  getPathRaw : HistoryRecord → String
  normPathFn : String → String

/-- The timestamp the scan derives for a record: `none` when the date
string is falsy or `fromisoformat` raises. -/
def recTime (P : ScanP) (rec : HistoryRecord) : Option Int :=
  if strOTruthy (recDateStr rec) then P.parseDate (replaceZ ((recDateStr rec).getD ""))
  else none

/-- Loop state of one page: the `deletions` ordered map and the
`page_has_target_date` / `found_older_than_range` flags. -/
structure PageState where
  dels : List (Int × String)
  pageHas : Bool
  foundOlder : Bool
  deriving DecidableEq

/-- `deletions[movie_id] = path` on an `OrderedDict`: update in place when
the key exists, else append. -/
def odAssign (m : List (Int × String)) (k : Int) (v : String) : List (Int × String) :=
  if m.any (fun kv => kv.1 = k) then m.map (fun kv => if kv.1 = k then (k, v) else kv)
  else m ++ [(k, v)]

/-- The `if movie_id:` / `if raw_path:` tail of the loop body, for an
in-window record of the target event kind. -/
def processRecordId (P : ScanP) (st : PageState) (rec : HistoryRecord) : PageState :=
  match intTruthyO (P.getIdRaw rec) with
  | none => { st with pageHas := true }
  | some mid =>
    if P.getPathRaw rec ≠ "" then
      { st with pageHas := true,
                dels := odAssign st.dels mid (P.normPathFn (P.getPathRaw rec)) }
    else { st with pageHas := true }

/-- The loop body for a record whose timestamp parsed to `t`. -/
def processRecordT (P : ScanP) (st : PageState) (rec : HistoryRecord) (t : Int) : PageState :=
  if P.startT ≤ t ∧ t < P.endT then
    if pyLower rec.eventType = P.targetType then processRecordId P st rec
    else { st with pageHas := true }
  else if t < P.startT then { st with foundOlder := true }
  else st

/-- Embedding of the per-record body of the scan loop in
`find_all_deletions_on_date` (shared shape of the Radarr and Sonarr
variants; the differing strings and extraction chains live in `ScanP`). -/
def processRecord (P : ScanP) (st : PageState) (rec : HistoryRecord) : PageState :=
  match recTime P rec with
  | none => st
  | some t => processRecordT P st rec t

/-- One page of the scan: fold the records over `processRecord`, with
`page_has_target_date` reset to `False` at the top of the page. -/
def processPage (P : ScanP) (recs : List HistoryRecord) (m : List (Int × String))
    (fOld : Bool) : PageState :=
  recs.foldl (processRecord P) ⟨m, false, fOld⟩

/-- The paginated `while True` loop of `find_all_deletions_on_date`, with
explicit fuel for the unbounded iteration.  Returns the final `deletions`
map and `some p` for the page at which a `break` fired (`none` if the fuel
ran out first).  The three breaks are: empty page, short page
(`len(records) < 1000`), and `found_older_than_range and not
page_has_target_date`. -/
def scanLoop (P : ScanP) (feed : Nat → List HistoryRecord) :
    Nat → Nat → List (Int × String) → Bool → List (Int × String) × Option Nat
  | 0, _, m, _ => (m, none)
  | fuel + 1, page, m, fOld =>
    if feed page = [] then (m, some page)
    else if (feed page).length < 1000 then
      ((processPage P (feed page) m fOld).dels, some page)
    else if (processPage P (feed page) m fOld).foundOlder ∧
        ¬ (processPage P (feed page) m fOld).pageHas then
      ((processPage P (feed page) m fOld).dels, some page)
    else
      scanLoop P feed fuel (page + 1) (processPage P (feed page) m fOld).dels
        (processPage P (feed page) m fOld).foundOlder

/-- `find_all_deletions_on_date`, starting at page 1 with an empty map. -/
def findAllDeletions (P : ScanP) (feed : Nat → List HistoryRecord) (fuel : Nat) :
    List (Int × String) × Option Nat :=
  scanLoop P feed fuel 1 [] false

/-- Radarr id extraction: `rec.get("movieId") or (rec.get("movie") or {}).get("id")`. -/
def radarrGetId (rec : HistoryRecord) : Option Int :=
  pyOrI rec.movieId rec.movieInnerId

/-- Radarr path extraction chain. -/
def radarrGetPath (rec : HistoryRecord) : String :=
  firstTruthyS [rec.dataPath, rec.sourceTitle, rec.dataMovieFilePath, rec.movieFilePath]

/-- Sonarr id extraction: `rec.get("episodeId")`. -/
def sonarrGetId (rec : HistoryRecord) : Option Int :=
  rec.episodeId

/-- Sonarr path extraction chain. -/
def sonarrGetPath (rec : HistoryRecord) : String :=
  firstTruthyS [rec.dataPath, rec.sourceTitle, rec.episodeFilePath]

/-- Scan parameters of `radarr_deleted.py`.  The `.getD s` fallback of the
normalizer is unreachable: `radarrNormalize` is total (proved below). -/
def radarrScanP (parse : String → Option Int) (s e : Int) : ScanP :=
  ⟨s, e, parse, "moviefiledeleted", radarrGetId, radarrGetPath,
    fun p => (radarrNormalize p).getD p⟩

/-- Scan parameters of `sonarr_deleted.py`. -/
def sonarrScanP (parse : String → Option Int) (s e : Int) : ScanP :=
  ⟨s, e, parse, "episodefiledeleted", sonarrGetId, sonarrGetPath,
    fun p => (sonarrNormalize p).getD p⟩

/-! Specification-side views of the scan, used to characterize it. -/

/-- A record with a parsed timestamp inside `[start_utc, end_utc)`. -/
def inWindowB (P : ScanP) (rec : HistoryRecord) : Bool :=
  match recTime P rec with
  | some t => decide (P.startT ≤ t ∧ t < P.endT)
  | none => false

/-- A record with a parsed timestamp before `start_utc`. -/
def olderB (P : ScanP) (rec : HistoryRecord) : Bool :=
  match recTime P rec with
  | some t => decide (t < P.startT)
  | none => false

/-- The `(entity_id, normalized_path)` pair extracted from a record of the
target kind (id/path truthiness guards). -/
def qualPairId (P : ScanP) (rec : HistoryRecord) : Option (Int × String) :=
  match intTruthyO (P.getIdRaw rec) with
  | none => none
  | some mid =>
    if P.getPathRaw rec ≠ "" then some (mid, P.normPathFn (P.getPathRaw rec)) else none

/-- The `(entity_id, normalized_path)` pair a record contributes to the
`deletions` map, when it passes every guard of the loop body. -/
def qualPair (P : ScanP) (rec : HistoryRecord) : Option (Int × String) :=
  match recTime P rec with
  | none => none
  | some t =>
    if P.startT ≤ t ∧ t < P.endT ∧ pyLower rec.eventType = P.targetType then qualPairId P rec
    else none

/-- All qualifying `(id, path)` pairs of a record list, in scan order. -/
def qualList (P : ScanP) (recs : List HistoryRecord) : List (Int × String) :=
  recs.filterMap (qualPair P)

/-- Lookup in the ordered `deletions` map. -/
def lookupD (m : List (Int × String)) (k : Int) : Option String :=
  (m.find? (fun kv => kv.1 = k)).map (fun kv => kv.2)

/-- The path of the last qualifying deletion event for `k`, in scan order. -/
def lastQualPath (P : ScanP) (recs : List HistoryRecord) (k : Int) : Option String :=
  ((qualList P recs).reverse.find? (fun kv => kv.1 = k)).map (fun kv => kv.2)

/-- The path of the first qualifying deletion event for `k`, in scan order
(this is the spec's "first-seen wins" reading). -/
def firstQualPath (P : ScanP) (recs : List HistoryRecord) (k : Int) : Option String :=
  ((qualList P recs).find? (fun kv => kv.1 = k)).map (fun kv => kv.2)

/-- The concatenation of pages `1..p` of the feed. -/
def pagesThrough (feed : Nat → List HistoryRecord) : Nat → List HistoryRecord
  | 0 => []
  | p + 1 => pagesThrough feed p ++ feed (p + 1)

/-- The records the loop actually folds into the map before stopping,
mirroring the loop's break structure. -/
def processedRecords (P : ScanP) (feed : Nat → List HistoryRecord) :
    Nat → Nat → Bool → List HistoryRecord
  | 0, _, _ => []
  | fuel + 1, page, fOld =>
    if feed page = [] then []
    else if (feed page).length < 1000 then feed page
    else if (processPage P (feed page) [] fOld).foundOlder ∧
        ¬ (processPage P (feed page) [] fOld).pageHas then feed page
    else
      feed page ++
        processedRecords P feed fuel (page + 1) (processPage P (feed page) [] fOld).foundOlder

/-- The accumulated `found_older_than_range` flag after pages `1..p`. -/
def scanFoundOlder (P : ScanP) (feed : Nat → List HistoryRecord) : Nat → Bool
  | 0 => false
  | p + 1 => (processPage P (feed (p + 1)) [] (scanFoundOlder P feed p)).foundOlder

/-- The loop's stop decision evaluated at page `p ≥ 1` (with the incoming
`found_older_than_range` flag accumulated over pages `1..p-1`). -/
def breaksAfterPage (P : ScanP) (feed : Nat → List HistoryRecord) (p : Nat) : Bool :=
  if feed p = [] then true
  else
    decide ((feed p).length < 1000) ||
      ((processPage P (feed p) [] (scanFoundOlder P feed (p - 1))).foundOlder &&
        !(processPage P (feed p) [] (scanFoundOlder P feed (p - 1))).pageHas)

/-- Minimum of a list of timestamps. -/
def listMin? : List Int → Option Int
  | [] => none
  | x :: xs =>
    match listMin? xs with
    | none => some x
    | some y => some (min x y)

/-- Whether the lowered event kind contains the substring `"deleted"`
(the spec's claimed filter). -/
def containsDeletedSub (s : String) : Bool :=
  ((pyLower s).data.tails).any (fun t => "deleted".data.isPrefixOf t)

/-! ## radarr_deleted.py — outcome of `main` -/

/-- Insertion step of a stable sort by a string key (model of Python
`sorted(..., key=...)`). -/
def insertSorted (key : α → String) (x : α) : List α → List α
  | [] => [x]
  | y :: ys => if decide (key y < key x) then y :: insertSorted key x ys else x :: y :: ys

/-- Sort by a string key. -/
def sortByKey (key : α → String) (l : List α) : List α :=
  l.foldr (insertSorted key) []

/-- Result of a `radarr_deleted.main` run: process exit code and the two
output files as line lists. -/
structure RadarrRun where
  exitCode : Nat
  missingOut : List String
  restoredOut : List String
  deriving DecidableEq

/-- Embedding of `radarr_deleted.main` around its outputs: exit 2 on a
falsy API key; with no deletions found, create both files empty and return
(exit 0); otherwise split by the current-state probe
(`get_current_movie_status`, an oracle `movieId ↦ (has_file, current_path)`)
and write the path-sorted lists.  Network/printing effects are omitted. -/
def radarrMain (apiKey : Option String) (dels : List (Int × String))
    (probe : Int → Bool × Option String) : RadarrRun :=
  if ¬ strOTruthy apiKey then ⟨2, [], []⟩
  else if dels = [] then ⟨0, [], []⟩
  else
    let missing := dels.filter (fun kv =>
      match probe kv.1 with
      | (true, some _) => false
      | _ => true)
    let restored := dels.filterMap (fun kv =>
      match probe kv.1 with
      | (true, some cp) => some (kv.1, kv.2, cp)
      | _ => none)
    ⟨0, (sortByKey (fun kv => kv.2) missing).map (fun kv => kv.2),
        (sortByKey (fun t => t.2.2) restored).map (fun t => t.2.2)⟩

example : radarrMain (some "k") [] (fun _ => (false, none)) = ⟨0, [], []⟩ := by decide
example : radarrMain none [] (fun _ => (false, none)) = ⟨2, [], []⟩ := by decide

/-! Scratch checks that the scan loop evaluates as the source does. -/

/-- A tiny timestamp parser oracle used in concrete instances: decimal
strings map to their value. -/
def toyParse : String → Option Int
  | "1" => some 1
  | "2" => some 2
  | "3" => some 3
  | "-5" => some (-5)
  | _ => none

example :
    (findAllDeletions (radarrScanP toyParse 0 10)
      (fun p => if p = 1 then
        [{ date := some "2", eventType := "MovieFileDeleted", movieId := some 7,
           dataPath := some "/movies/A/a.mkv" },
         { date := some "1", eventType := "MovieFileDeleted", movieId := some 7,
           dataPath := some "/movies/A/b.mkv" }] else []) 3).1
    = [(7, "movies/A/b.mkv")] := by decide

example :
    (findAllDeletions (radarrScanP toyParse 0 10) (fun _ => []) 3).2 = some 1 := by decide

/-! ## Helper lemmas about the string primitives -/

theorem str_data_append (a b : String) : (a ++ b).data = a.data ++ b.data := by
  cases a; cases b; rfl

theorem strStartsWith_slash_iff (s : String) :
    strStartsWith s "/" = true ↔ ∃ t, s.data = '/' :: t := by
  cases s with
  | mk d =>
    cases d with
    | nil => simp [strStartsWith, List.isPrefixOf]
    | cons c cs =>
      simp only [strStartsWith, List.isPrefixOf, Bool.and_eq_true, beq_iff_eq]
      constructor
      · intro h
        exact ⟨cs, by rw [← h.1]⟩
      · rintro ⟨t, ht⟩
        rw [List.cons.injEq] at ht
        exact ⟨ht.1.symm, by simp [List.isPrefixOf]⟩

theorem strStartsWith_slash_append (a b : String) (h : strStartsWith a "/" = true) :
    strStartsWith (a ++ b) "/" = true := by
  rcases (strStartsWith_slash_iff a).mp h with ⟨t, ht⟩
  exact (strStartsWith_slash_iff _).mpr ⟨t ++ b.data, by rw [str_data_append, ht]; rfl⟩

theorem normpath_abs (p : String) (h : strStartsWith p "/" = true) :
    strStartsWith (normpath p) "/" = true := by
  have hne : p ≠ "" := by
    intro he
    subst he
    simp [strStartsWith, List.isPrefixOf] at h
  unfold normpath
  rw [if_neg hne]
  simp only [h, if_true]
  by_cases h2 : strStartsWith p "//" = true ∧ ¬ strStartsWith p "///" = true
  · rw [if_pos h2]
    have hne2 : (List.replicate 2 '/' ++
        joinSegs ((splitChar '/' p.data).foldl (normStep 2) [])) ≠ [] := by simp [List.replicate]
    rw [if_neg hne2]
    exact (strStartsWith_slash_iff _).mpr
      ⟨'/' :: joinSegs ((splitChar '/' p.data).foldl (normStep 2) []), rfl⟩
  · rw [if_neg h2]
    have hne1 : (List.replicate 1 '/' ++
        joinSegs ((splitChar '/' p.data).foldl (normStep 1) [])) ≠ [] := by simp [List.replicate]
    rw [if_neg hne1]
    exact (strStartsWith_slash_iff _).mpr
      ⟨joinSegs ((splitChar '/' p.data).foldl (normStep 1) []), rfl⟩

theorem pyAbspath_abs (cwd p : String) (h : strStartsWith cwd "/" = true) :
    strStartsWith (pyAbspath cwd p) "/" = true := by
  unfold pyAbspath
  by_cases hp : strStartsWith p "/" = true
  · rw [if_pos hp]
    exact normpath_abs p hp
  · rw [if_neg hp]
    apply normpath_abs
    unfold pyJoin
    rw [if_neg hp]
    by_cases he : cwd = "" ∨ strEndsWithSlash cwd = true
    · rw [if_pos he]
      exact strStartsWith_slash_append _ _ h
    · rw [if_neg he]
      exact strStartsWith_slash_append _ _ (strStartsWith_slash_append _ _ h)

/-! ## C1 -/

/-- **C1**: for every non-blank, filter-matching input line, the
`recovery_plan.py` classifier assigns exactly one of FOUND / BACKUP /
REDOWNLOAD / MISSING in strict priority order: FOUND iff the probed path
exists (regardless of the backup allowlist), else BACKUP iff the top-level
component is allow-listed, else REDOWNLOAD iff the exact string is in the
deleted set, else MISSING. -/
theorem plan_classifier_priority (fsE : String → Bool) (basePath : String)
    (backupSet deletedSet : List String) (folder : Option String) (line : String)
    (h1 : pyStrip line ≠ "") (h2 : folderMatcher folder (pyStrip line) = true) :
    (planProcessLine fsE basePath backupSet deletedSet folder line = some PlanCat.found ↔
      fsE (pyJoin basePath (pyStrip line)) = true) ∧
    (planProcessLine fsE basePath backupSet deletedSet folder line = some PlanCat.backup ↔
      (fsE (pyJoin basePath (pyStrip line)) = false ∧
        topLevelComponent (pyStrip line) ∈ backupSet)) ∧
    (planProcessLine fsE basePath backupSet deletedSet folder line = some PlanCat.redownload ↔
      (fsE (pyJoin basePath (pyStrip line)) = false ∧
        topLevelComponent (pyStrip line) ∉ backupSet ∧ pyStrip line ∈ deletedSet)) ∧
    (planProcessLine fsE basePath backupSet deletedSet folder line = some PlanCat.missing ↔
      (fsE (pyJoin basePath (pyStrip line)) = false ∧
        topLevelComponent (pyStrip line) ∉ backupSet ∧ pyStrip line ∉ deletedSet)) := by
  have h2' : ¬ ¬ folderMatcher folder (pyStrip line) = true := by simp [h2]
  simp only [planProcessLine, if_neg h1, if_neg h2']
  by_cases hf : fsE (pyJoin basePath (pyStrip line)) = true
  · simp [hf]
  · have hf' : fsE (pyJoin basePath (pyStrip line)) = false := by
      simpa using hf
    by_cases hb : topLevelComponent (pyStrip line) ∈ backupSet
    · simp [hf', hb]
    · by_cases hd : pyStrip line ∈ deletedSet
      · simp [hf', hb, hd]
      · simp [hf', hb, hd]

/-- Concrete filesystem oracle for the C1 witness. -/
def fsW : String → Bool := fun p => p = "/mnt/user/tv/B/b.mkv"

/-- Witness for C1 at a concrete input: `tv/B/b.mkv` exists under the base
path, hence is classified FOUND. -/
theorem plan_classifier_priority_w :
    planProcessLine fsW "/mnt/user" ["tv"] [] none "tv/B/b.mkv" = some PlanCat.found ↔
      fsW (pyJoin "/mnt/user" "tv/B/b.mkv") = true :=
  (plan_classifier_priority fsW "/mnt/user" ["tv"] [] none "tv/B/b.mkv"
    (by decide) (by decide)).1

/-! ## C2 -/

/-- **C2**: `safe_join` either returns an absolute path that equals the
(resolved) root or lies strictly inside it, or raises; the traversal input
`../../etc/passwd` is rejected; and when it raises, the restore step
performs no write for that item (the destination state is unchanged and no
copy happens). -/
theorem safe_join_escape_guard :
    (∀ cwd root rel s, strStartsWith cwd "/" = true →
      safeJoin cwd root rel = Except.ok s →
      strStartsWith s "/" = true ∧
        (s = pyAbspath cwd root ∨ strStartsWith s (pyAbspath cwd root ++ "/") = true)) ∧
    (safeJoin "/work" "/restore" "../../etc/passwd" =
      Except.error "Unsafe path outside root: ../../etc/passwd") ∧
    (∀ env st line e, safeJoin env.cwd env.restoreRoot (pyStrip line) = Except.error e →
      (restoreStep env st line).2 = st ∧
        ∀ d, (restoreStep env st line).1 ≠ ROutcome.okCopy d) := by
  refine ⟨?_, by rfl, ?_⟩
  · intro cwd root rel s hcwd hok
    simp only [safeJoin] at hok
    split at hok
    case isTrue hg =>
      cases hok
      exact ⟨pyAbspath_abs _ _ hcwd, hg⟩
    case isFalse hg =>
      cases hok
  · intro env st line e herr
    unfold restoreStep
    by_cases h0 : pyStrip line = ""
    · simp [h0]
    · rw [if_neg h0]
      by_cases h1 : ¬ folderMatcher env.folder (pyStrip line) = true
      · rw [if_pos h1]
        exact ⟨rfl, fun d => by simp⟩
      · rw [if_neg h1]
        by_cases h2 : srcOk env (pyStrip line) = true
        · rw [if_pos h2, restoreAttempt_error env st (pyStrip line) e herr]
          exact ⟨rfl, fun d => by simp⟩
        · rw [if_neg h2]
          exact ⟨rfl, fun d => by simp⟩

/-- Witness for C2 at a concrete input: a benign relative path joins to an
in-root absolute destination. -/
theorem safe_join_escape_guard_w :
    strStartsWith "/restore/tv/a.mkv" "/" = true ∧
      ("/restore/tv/a.mkv" = pyAbspath "/work" "/restore" ∨
        strStartsWith "/restore/tv/a.mkv" (pyAbspath "/work" "/restore" ++ "/") = true) :=
  safe_join_escape_guard.1 "/work" "/restore" "tv/a.mkv" "/restore/tv/a.mkv"
    (by decide) (by rfl)

/-! ## Monotonicity and stability of the restore step (towards C3, C10) -/

theorem destExists_of_mem {p : String} {b : Bool} {st : DestFS}
    (h : (p, b) ∈ st) : destExists p st = true := by
  unfold destExists
  rw [List.any_eq_true]
  exact ⟨(p, b), h, by simp⟩

theorem destExists_to_mem {p : String} {st : DestFS}
    (h : destExists p st = true) : ∃ b, (p, b) ∈ st := by
  unfold destExists at h
  rw [List.any_eq_true] at h
  rcases h with ⟨e, he, hp⟩
  simp only [decide_eq_true_eq] at hp
  exact ⟨e.2, by rw [← hp]; exact he⟩

theorem destExists_mono {p : String} {st T : DestFS}
    (hsub : ∀ e ∈ st, e ∈ T) (h : destExists p st = true) : destExists p T = true := by
  rcases destExists_to_mem h with ⟨b, hb⟩
  exact destExists_of_mem (hsub _ hb)

theorem pyMakedirsGo_mono (comps : List String) (st : DestFS) (e : String × Bool)
    (he : e ∈ st) : e ∈ (pyMakedirsGo comps st).2 := by
  induction comps generalizing st with
  | nil => exact he
  | cons q rest ih =>
    unfold pyMakedirsGo
    by_cases hq : st.any (fun x => x.1 = q ∧ x.2 = false) = true
    · rw [if_pos hq]
      exact he
    · rw [if_neg hq]
      exact ih _ (List.mem_cons_of_mem _ he)

theorem pyMakedirsGo_false_mono (comps : List String) (st T : DestFS)
    (hsub : ∀ x ∈ st, x ∈ T)
    (hf : (pyMakedirsGo comps st).1 = false) : (pyMakedirsGo comps T).1 = false := by
  induction comps generalizing st T with
  | nil => simp [pyMakedirsGo] at hf
  | cons q rest ih =>
    unfold pyMakedirsGo at hf ⊢
    by_cases hq : st.any (fun x => x.1 = q ∧ x.2 = false) = true
    · have hT : T.any (fun x => x.1 = q ∧ x.2 = false) = true := by
        rw [List.any_eq_true] at hq ⊢
        rcases hq with ⟨x, hx, hxp⟩
        exact ⟨x, hsub _ hx, hxp⟩
      rw [if_pos hT]
    · rw [if_neg hq] at hf
      by_cases hT : T.any (fun x => x.1 = q ∧ x.2 = false) = true
      · rw [if_pos hT]
      · rw [if_neg hT]
        refine ih _ _ ?_ hf
        intro x hx
        rcases List.mem_cons.mp hx with h | h
        · rw [h]; exact List.mem_cons_self _ _
        · exact List.mem_cons_of_mem _ (hsub _ h)

theorem restoreStep_mono (env : REnv) (st : DestFS) (line : String) (e : String × Bool)
    (he : e ∈ st) : e ∈ (restoreStep env st line).2 := by
  unfold restoreStep
  by_cases h0 : pyStrip line = ""
  · rw [if_pos h0]; exact he
  · rw [if_neg h0]
    by_cases h1 : ¬ folderMatcher env.folder (pyStrip line) = true
    · rw [if_pos h1]; exact he
    · rw [if_neg h1]
      by_cases h2 : srcOk env (pyStrip line) = true
      · rw [if_pos h2]
        rcases hsj : safeJoin env.cwd env.restoreRoot (pyStrip line) with e0 | dst
        · rw [restoreAttempt_error env st _ e0 hsj]; exact he
        · rw [restoreAttempt_ok env st _ dst hsj]
          rcases hmk : pyMakedirs (pyDirname dst) st with ⟨ok, st1⟩
          have hst1 : e ∈ st1 := by
            have h' := pyMakedirsGo_mono (pathAncestors (pyDirname dst)) st e he
            rw [show pyMakedirsGo (pathAncestors (pyDirname dst)) st = (ok, st1) from hmk] at h'
            exact h'
          cases ok
          · rw [restoreCopyPhase_mkFalse env st st1 _ dst hmk]; exact hst1
          · rw [restoreCopyPhase_mkTrue env st st1 _ dst hmk]
            by_cases hde : destExists dst st1 = true
            · rw [if_pos hde]; exact hst1
            · rw [if_neg hde]
              by_cases hdir : env.arch (archSrc env (pyStrip line)) = some true
              · rw [if_pos hdir]; exact hst1
              · rw [if_neg hdir]; exact List.mem_cons_of_mem _ hst1
      · rw [if_neg h2]; exact he

theorem runRestore_mono (env : REnv) (lines : List String) (st : DestFS) (e : String × Bool)
    (he : e ∈ st) : e ∈ (runRestore env st lines).2 := by
  induction lines generalizing st with
  | nil => exact he
  | cons l ls ih =>
    unfold runRestore
    exact ih _ (restoreStep_mono env st l e he)

theorem restoreStep_stable (env : REnv) (line : String) (st T : DestFS)
    (hsub : ∀ e ∈ (restoreStep env st line).2, e ∈ T) (d : String) :
    (restoreStep env T line).1 ≠ ROutcome.okCopy d := by
  have hsub0 : ∀ e ∈ st, e ∈ T := fun e he => hsub e (restoreStep_mono env st line e he)
  unfold restoreStep at hsub ⊢
  by_cases h0 : pyStrip line = ""
  · rw [if_pos h0]; simp
  · rw [if_neg h0] at hsub ⊢
    by_cases h1 : ¬ folderMatcher env.folder (pyStrip line) = true
    · rw [if_pos h1]; simp
    · rw [if_neg h1] at hsub ⊢
      by_cases h2 : srcOk env (pyStrip line) = true
      · rw [if_pos h2] at hsub ⊢
        rcases hsj : safeJoin env.cwd env.restoreRoot (pyStrip line) with e0 | dst
        · rw [restoreAttempt_error env T _ e0 hsj]; simp
        · rw [restoreAttempt_ok env st _ dst hsj] at hsub
          rw [restoreAttempt_ok env T _ dst hsj]
          rcases hmkT : pyMakedirs (pyDirname dst) T with ⟨okT, T1⟩
          have hTsubT1 : ∀ e ∈ T, e ∈ T1 := by
            intro e he
            have h' := pyMakedirsGo_mono (pathAncestors (pyDirname dst)) T e he
            rw [show pyMakedirsGo (pathAncestors (pyDirname dst)) T = (okT, T1) from hmkT] at h'
            exact h'
          cases okT
          · rw [restoreCopyPhase_mkFalse env T T1 _ dst hmkT]; simp
          · rw [restoreCopyPhase_mkTrue env T T1 _ dst hmkT]
            rcases hmkS : pyMakedirs (pyDirname dst) st with ⟨okS, st1⟩
            cases okS
            · exfalso
              have hTf : (pyMakedirsGo (pathAncestors (pyDirname dst)) T).1 = false :=
                pyMakedirsGo_false_mono _ _ _ hsub0
                  (by rw [show pyMakedirsGo (pathAncestors (pyDirname dst)) st = (false, st1) from hmkS])
              rw [show pyMakedirsGo (pathAncestors (pyDirname dst)) T = (true, T1) from hmkT] at hTf
              cases hTf
            · rw [restoreCopyPhase_mkTrue env st st1 _ dst hmkS] at hsub
              by_cases hdeT : destExists dst T1 = true
              · rw [if_pos hdeT]; simp
              · rw [if_neg hdeT]
                by_cases hdir : env.arch (archSrc env (pyStrip line)) = some true
                · rw [if_pos hdir]; simp
                · rw [if_neg hdir]
                  exfalso
                  apply hdeT
                  by_cases hdeS : destExists dst st1 = true
                  · rw [if_pos hdeS] at hsub
                    rcases destExists_to_mem hdeS with ⟨b, hb⟩
                    exact destExists_of_mem (hTsubT1 _ (hsub _ hb))
                  · rw [if_neg hdeS, if_neg hdir] at hsub
                    exact destExists_of_mem (hTsubT1 _ (hsub _ (List.mem_cons_self _ _)))
      · rw [if_neg h2]; simp

theorem runRestore_no_ok (env : REnv) (lines : List String) (st T : DestFS)
    (hsub : ∀ e ∈ (runRestore env st lines).2, e ∈ T) :
    (runRestore env T lines).1.filter isOkCopy = [] := by
  induction lines generalizing st T with
  | nil => rfl
  | cons l ls ih =>
    have hstep : ∀ e ∈ (restoreStep env st l).2, e ∈ T := by
      intro e he
      exact hsub e (runRestore_mono env ls _ e he)
    unfold runRestore
    rw [List.filter_cons]
    have hno : isOkCopy (restoreStep env T l).1 = false := by
      rcases h : (restoreStep env T l).1 with _ | _ | _ | _ | d | _ <;> simp [isOkCopy]
      exact restoreStep_stable env l st T hstep d h
    rw [if_neg (by simp [hno])]
    apply ih (restoreStep env st l).2 (restoreStep env T l).2
    intro e he
    exact restoreStep_mono env T l e (hsub e he)

/-! ## C3 -/

/-- **C3**: the restore step is idempotent and non-destructive.  A copy is
only ever performed to a destination that does not yet exist (so existing
files are never overwritten, and a confirmed item whose destination exists
is skipped, not copied); and re-running the whole restore over the same
input list, starting from the destination state the first run left behind,
produces zero OK copies. -/
theorem restore_rerun_idempotent (env : REnv) (lines : List String) (st0 : DestFS) :
    ((runRestore env (runRestore env st0 lines).2 lines).1.filter isOkCopy = []) ∧
    (∀ st line dst, (restoreStep env st line).1 = ROutcome.okCopy dst →
      destExists dst st = false) := by
  constructor
  · exact runRestore_no_ok env lines st0 _ (fun e he => he)
  · intro st line dst hok
    unfold restoreStep at hok
    by_cases h0 : pyStrip line = ""
    · rw [if_pos h0] at hok; simp at hok
    · rw [if_neg h0] at hok
      by_cases h1 : ¬ folderMatcher env.folder (pyStrip line) = true
      · rw [if_pos h1] at hok; simp at hok
      · rw [if_neg h1] at hok
        by_cases h2 : srcOk env (pyStrip line) = true
        · rw [if_pos h2] at hok
          rcases hsj : safeJoin env.cwd env.restoreRoot (pyStrip line) with e0 | dst'
          · rw [restoreAttempt_error env st _ e0 hsj] at hok; simp at hok
          · rw [restoreAttempt_ok env st _ dst' hsj] at hok
            rcases hmk : pyMakedirs (pyDirname dst') st with ⟨ok, st1⟩
            have hsub : ∀ e ∈ st, e ∈ st1 := by
              intro e he
              have h' := pyMakedirsGo_mono (pathAncestors (pyDirname dst')) st e he
              rw [show pyMakedirsGo (pathAncestors (pyDirname dst')) st = (ok, st1) from hmk] at h'
              exact h'
            cases ok
            · rw [restoreCopyPhase_mkFalse env st st1 _ dst' hmk] at hok; simp at hok
            · rw [restoreCopyPhase_mkTrue env st st1 _ dst' hmk] at hok
              by_cases hde : destExists dst' st1 = true
              · rw [if_pos hde] at hok; simp at hok
              · rw [if_neg hde] at hok
                by_cases hdir : env.arch (archSrc env (pyStrip line)) = some true
                · rw [if_pos hdir] at hok; simp at hok
                · rw [if_neg hdir] at hok
                  replace hok : ROutcome.okCopy dst' = ROutcome.okCopy dst := hok
                  cases hok
                  rcases h : destExists dst st with _ | _
                  · rfl
                  · exact absurd (destExists_mono hsub h) (by simp [hde])
        · rw [if_neg h2] at hok; simp at hok

/-- Concrete environment for the C3 and C10 witnesses' claim instances. -/
def envW3 : REnv :=
  ⟨fun s => if s = "/arch/a.txt" then some false else none, "/arch", "/dst", "/", false, none⟩

/-- Witness for C3: a concrete one-file restore re-run yields no OK copies
the second time, and the copy the theorem reasons about targets a
previously-absent destination. -/
theorem restore_rerun_idempotent_w :
    ((runRestore envW3 (runRestore envW3 [] ["a.txt"]).2 ["a.txt"]).1.filter isOkCopy = []) ∧
      destExists "/dst/a.txt" [] = false :=
  ⟨(restore_rerun_idempotent envW3 ["a.txt"] []).1,
   (restore_rerun_idempotent envW3 ["a.txt"] []).2 [] "a.txt" "/dst/a.txt" (by decide)⟩

/-! ## C10 -/

/-- **C10**: in restore mode without `--strict-files`, a directory source is
never copied: if the step reports a successful copy then the archive source
was not a directory, and a confirmed (existing, filter-matching) directory
source is recorded SKIPPED (or ERROR when a guard raised), never copied. -/
theorem restore_never_copies_dirs (env : REnv) (st : DestFS) (line : String)
    (hstrict : env.strict = false) :
    (∀ d, (restoreStep env st line).1 = ROutcome.okCopy d →
      env.arch (archSrc env (pyStrip line)) ≠ some true) ∧
    (env.arch (archSrc env (pyStrip line)) = some true →
      pyStrip line ≠ "" → folderMatcher env.folder (pyStrip line) = true →
      (restoreStep env st line).1 = ROutcome.skipped ∨
        (restoreStep env st line).1 = ROutcome.errorR) := by
  constructor
  · intro d hd hdirEq
    unfold restoreStep at hd
    by_cases h0 : pyStrip line = ""
    · rw [if_pos h0] at hd; simp at hd
    · rw [if_neg h0] at hd
      by_cases h1 : ¬ folderMatcher env.folder (pyStrip line) = true
      · rw [if_pos h1] at hd; simp at hd
      · rw [if_neg h1] at hd
        by_cases h2 : srcOk env (pyStrip line) = true
        · rw [if_pos h2] at hd
          rcases hsj : safeJoin env.cwd env.restoreRoot (pyStrip line) with e0 | dst
          · rw [restoreAttempt_error env st _ e0 hsj] at hd; simp at hd
          · rw [restoreAttempt_ok env st _ dst hsj] at hd
            rcases hmk : pyMakedirs (pyDirname dst) st with ⟨ok, st1⟩
            cases ok
            · rw [restoreCopyPhase_mkFalse env st st1 _ dst hmk] at hd; simp at hd
            · rw [restoreCopyPhase_mkTrue env st st1 _ dst hmk] at hd
              by_cases hde : destExists dst st1 = true
              · rw [if_pos hde] at hd; simp at hd
              · rw [if_neg hde, if_pos hdirEq] at hd; simp at hd
        · rw [if_neg h2] at hd; simp at hd
  · intro hdir hne hmatch
    unfold restoreStep
    rw [if_neg hne, if_neg (show ¬ ¬ folderMatcher env.folder (pyStrip line) = true by simp [hmatch])]
    have h2 : srcOk env (pyStrip line) = true := by
      unfold srcOk
      rw [hstrict]
      simp [hdir]
    rw [if_pos h2]
    rcases hsj : safeJoin env.cwd env.restoreRoot (pyStrip line) with e0 | dst
    · rw [restoreAttempt_error env st _ e0 hsj]
      exact Or.inr rfl
    · rw [restoreAttempt_ok env st _ dst hsj]
      rcases hmk : pyMakedirs (pyDirname dst) st with ⟨ok, st1⟩
      cases ok
      · rw [restoreCopyPhase_mkFalse env st st1 _ dst hmk]
        exact Or.inr rfl
      · rw [restoreCopyPhase_mkTrue env st st1 _ dst hmk]
        by_cases hde : destExists dst st1 = true
        · rw [if_pos hde]; exact Or.inl rfl
        · rw [if_neg hde, if_pos hdir]; exact Or.inl rfl

/-- Concrete environment for the C10 witness: the archive path `d` is a
directory. -/
def envW10 : REnv :=
  ⟨fun s => if s = "/arch/d" then some true else none, "/arch", "/dst", "/", false, none⟩

/-- Witness for C10: the confirmed directory source `d` is skipped. -/
theorem restore_never_copies_dirs_w :
    (restoreStep envW10 [] "d").1 = ROutcome.skipped ∨
      (restoreStep envW10 [] "d").1 = ROutcome.errorR :=
  (restore_never_copies_dirs envW10 [] "d" rfl).2 (by decide) (by decide) (by decide)

/-! ## Segment split/join round-trip lemmas (towards C8, C9) -/

theorem splitCharAux_sepFree (sep : Char) (cs : List Char) :
    ∀ acc, sep ∉ acc → ∀ seg ∈ splitCharAux sep cs acc, sep ∉ seg := by
  induction cs with
  | nil =>
    intro acc hacc seg hseg
    unfold splitCharAux at hseg
    rcases List.mem_singleton.mp hseg with h
    rw [h]
    simpa [List.mem_reverse] using hacc
  | cons c cs ih =>
    intro acc hacc seg hseg
    unfold splitCharAux at hseg
    by_cases hc : c = sep
    · rw [if_pos hc] at hseg
      rcases List.mem_cons.mp hseg with h | h
      · rw [h]
        simpa [List.mem_reverse] using hacc
      · exact ih [] (by simp) seg h
    · rw [if_neg hc] at hseg
      refine ih (c :: acc) ?_ seg hseg
      intro hmem
      rcases List.mem_cons.mp hmem with h | h
      · exact hc h.symm
      · exact hacc h

theorem splitCharAux_chars (sep : Char) (P : Char → Prop) (cs : List Char) :
    ∀ acc, (∀ c ∈ acc, P c) → (∀ c ∈ cs, P c) →
      ∀ seg ∈ splitCharAux sep cs acc, ∀ c ∈ seg, P c := by
  induction cs with
  | nil =>
    intro acc hacc _ seg hseg c hc
    unfold splitCharAux at hseg
    rcases List.mem_singleton.mp hseg with h
    rw [h] at hc
    exact hacc c (List.mem_reverse.mp hc)
  | cons a cs ih =>
    intro acc hacc hcs seg hseg c hc
    unfold splitCharAux at hseg
    by_cases ha : a = sep
    · rw [if_pos ha] at hseg
      rcases List.mem_cons.mp hseg with h | h
      · rw [h] at hc
        exact hacc c (List.mem_reverse.mp hc)
      · exact ih [] (by simp) (fun d hd => hcs d (List.mem_cons_of_mem _ hd)) seg h c hc
    · rw [if_neg ha] at hseg
      refine ih (a :: acc) ?_ (fun d hd => hcs d (List.mem_cons_of_mem _ hd)) seg hseg c hc
      intro d hd
      rcases List.mem_cons.mp hd with h | h
      · rw [h]
        exact hcs a (List.mem_cons_self _ _)
      · exact hacc d h

theorem splitCharAux_nil (sep : Char) (acc : List Char) :
    splitCharAux sep [] acc = [acc.reverse] := rfl

theorem splitCharAux_consSep (sep : Char) (cs acc : List Char) :
    splitCharAux sep (sep :: cs) acc = acc.reverse :: splitCharAux sep cs [] := by
  simp [splitCharAux]

theorem splitCharAux_consOther (sep a : Char) (cs acc : List Char) (ha : ¬ a = sep) :
    splitCharAux sep (a :: cs) acc = splitCharAux sep cs (a :: acc) := by
  simp [splitCharAux, ha]

theorem splitCharAux_append_sepFree (sep : Char) (s : List Char) (hs : sep ∉ s) :
    ∀ cs acc, splitCharAux sep (s ++ cs) acc = splitCharAux sep cs (s.reverse ++ acc) := by
  induction s with
  | nil => intro cs acc; rfl
  | cons a s ih =>
    intro cs acc
    have ha : ¬ a = sep := fun h => hs (by rw [h]; exact List.mem_cons_self _ _)
    have h1 : splitCharAux sep ((a :: s) ++ cs) acc = splitCharAux sep (s ++ cs) (a :: acc) :=
      splitCharAux_consOther sep a (s ++ cs) acc ha
    rw [h1, ih (fun h => hs (List.mem_cons_of_mem _ h)) cs (a :: acc)]
    congr 1
    simp

theorem splitChar_joinSegs (l : List (List Char))
    (h : ∀ s ∈ l, s ≠ [] ∧ '/' ∉ s) :
    (splitChar '/' (joinSegs l)).filter (fun s => s ≠ []) = l := by
  induction l with
  | nil => rfl
  | cons s rest ih =>
    have hs := h s (List.mem_cons_self _ _)
    cases rest with
    | nil =>
      have h1 : joinSegs [s] = s ++ ([] : List Char) := by simp [joinSegs]
      unfold splitChar
      rw [h1, splitCharAux_append_sepFree '/' s hs.2 [] [], splitCharAux_nil]
      simp [List.filter_cons, hs.1]
    | cons r t =>
      have hj : joinSegs (s :: r :: t) = s ++ '/' :: joinSegs (r :: t) := rfl
      unfold splitChar
      rw [hj, splitCharAux_append_sepFree '/' s hs.2 ('/' :: joinSegs (r :: t)) [],
        splitCharAux_consSep]
      have htail := ih (fun u hu => h u (List.mem_cons_of_mem _ hu))
      unfold splitChar at htail
      rw [List.filter_cons, if_pos (by simp [hs.1]), htail]
      simp

theorem sepReplace_eq_self (cs : List Char) (h : ∀ c ∈ cs, c ≠ '\\') :
    sepReplace cs = cs := by
  induction cs with
  | nil => rfl
  | cons c cs ih =>
    unfold sepReplace
    simp only [List.map_cons]
    rw [if_neg (h c (List.mem_cons_self _ _))]
    have := ih (fun d hd => h d (List.mem_cons_of_mem _ hd))
    unfold sepReplace at this
    rw [this]

theorem sepReplace_no_bs (cs : List Char) : ∀ c ∈ sepReplace cs, c ≠ '\\' := by
  intro c hc
  unfold sepReplace at hc
  rcases List.mem_map.mp hc with ⟨d, hd, hdc⟩
  by_cases h : d = '\\'
  · rw [if_pos h] at hdc
    rw [← hdc]
    decide
  · rw [if_neg h] at hdc
    rw [← hdc]
    exact h

theorem joinSegs_chars (l : List (List Char)) (c : Char) (hc : c ∈ joinSegs l) :
    c = '/' ∨ ∃ s ∈ l, c ∈ s := by
  induction l with
  | nil => simp [joinSegs] at hc
  | cons s rest ih =>
    cases rest with
    | nil => exact Or.inr ⟨s, List.mem_cons_self _ _, hc⟩
    | cons r t =>
      have hj : joinSegs (s :: r :: t) = s ++ '/' :: joinSegs (r :: t) := rfl
      rw [hj] at hc
      rcases List.mem_append.mp hc with h | h
      · exact Or.inr ⟨s, List.mem_cons_self _ _, h⟩
      · rcases List.mem_cons.mp h with h | h
        · exact Or.inl h
        · rcases ih h with h | ⟨u, hu, hcu⟩
          · exact Or.inl h
          · exact Or.inr ⟨u, List.mem_cons_of_mem _ hu, hcu⟩

theorem pathSegs_props (p : String) : ∀ s ∈ pathSegs p, s ≠ [] ∧ '/' ∉ s ∧ '\\' ∉ s := by
  intro s hs
  unfold pathSegs at hs
  have hs' := List.mem_filter.mp hs
  refine ⟨by simpa using hs'.2, ?_, ?_⟩
  · exact splitCharAux_sepFree '/' (sepReplace p.data) [] (by simp) s hs'.1
  · intro hmem
    exact splitCharAux_chars '/' (fun c => c ≠ '\\') (sepReplace p.data) [] (by simp)
      (sepReplace_no_bs p.data) s hs'.1 '\\' hmem rfl

theorem pathSegs_roundtrip (l : List (List Char))
    (h : ∀ s ∈ l, s ≠ [] ∧ '/' ∉ s ∧ '\\' ∉ s) :
    pathSegs (String.mk (joinSegs l)) = l := by
  unfold pathSegs
  have hrep : sepReplace (joinSegs l) = joinSegs l := by
    apply sepReplace_eq_self
    intro c hc
    rcases joinSegs_chars l c hc with h' | ⟨s, hsl, hcs⟩
    · rw [h']
      decide
    · intro hbs
      exact (h s hsl).2.2 (hbs ▸ hcs)
  show ((splitChar '/' (sepReplace (joinSegs l))).filter (fun s => s ≠ [])) = l
  rw [hrep]
  exact splitChar_joinSegs l (fun s hs => ⟨(h s hs).1, (h s hs).2.1⟩)

/-! ## Properties of the root-normalization (C8, C9) -/

theorem stripKnownRoots_sub (roots segs : List (List Char)) :
    ∀ s ∈ stripKnownRoots roots segs, s ∈ segs := by
  intro s hs
  simp only [stripKnownRoots] at hs
  split at hs
  · exact List.drop_subset _ _ hs
  · split at hs
    · exact hs
    · split at hs
      · exact List.drop_subset _ _ hs
      · exact hs

theorem stripKnownRoots_ne_nil (roots segs : List (List Char)) (h : segs ≠ []) :
    stripKnownRoots roots segs ≠ [] := by
  simp only [stripKnownRoots]
  split
  case isTrue h1 =>
    have hlen : 3 ≤ segs.length := by
      have := h1.2.1
      simpa using this
    intro hnil
    have hl := congrArg List.length hnil
    rw [List.length_drop] at hl
    simp at hl
    omega
  case isFalse =>
    split
    · exact h
    · split
      case isTrue h3 =>
        have hlen : 2 ≤ segs.length := by
          have := h3.1
          simpa using this
        intro hnil
        have hl := congrArg List.length hnil
        rw [List.length_drop] at hl
        simp at hl
        omega
      case isFalse => exact h

theorem stripKnownRoots_canonical (roots : List (List Char)) (canonical : List Char)
    (rest : List (List Char))
    (hb1 : lowerSeg canonical ∉ ["mnt".data, "data".data, "pool".data])
    (hb2 : lowerSeg canonical ∈ roots) :
    stripKnownRoots roots (canonical :: rest) = canonical :: rest := by
  simp only [stripKnownRoots, List.map_cons, List.headD_cons]
  rw [if_neg (fun hcon => hb1 hcon.1), if_pos hb2]

theorem normalizeRoot_some (roots : List (List Char)) (canonical : List Char)
    (hc1 : canonical ≠ []) (hc2 : '/' ∉ canonical) (hc3 : '\\' ∉ canonical)
    (p : String) (h0 : pathSegs p ≠ []) :
    ∃ rest, normalizeRoot roots canonical p =
        some (String.mk (joinSegs (canonical :: rest))) ∧
      pathSegs (String.mk (joinSegs (canonical :: rest))) = canonical :: rest := by
  unfold normalizeRoot
  rw [if_neg h0]
  rcases hstrip : stripKnownRoots roots (pathSegs p) with _ | ⟨s0, rest⟩
  · exact absurd hstrip (stripKnownRoots_ne_nil roots _ h0)
  · have hprops : ∀ s ∈ canonical :: rest, s ≠ [] ∧ '/' ∉ s ∧ '\\' ∉ s := by
      intro s hsm
      rcases List.mem_cons.mp hsm with h | h
      · rw [h]
        exact ⟨hc1, hc2, hc3⟩
      · have h1 : s ∈ stripKnownRoots roots (pathSegs p) := by
          rw [hstrip]
          exact List.mem_cons_of_mem _ h
        exact pathSegs_props p s (stripKnownRoots_sub roots _ s h1)
    exact ⟨rest, rfl, pathSegs_roundtrip _ hprops⟩

theorem normalizeRoot_total_idem (roots : List (List Char)) (canonical : List Char)
    (hc1 : canonical ≠ []) (hc2 : '/' ∉ canonical) (hc3 : '\\' ∉ canonical)
    (hb1 : lowerSeg canonical ∉ ["mnt".data, "data".data, "pool".data])
    (hb2 : lowerSeg canonical ∈ roots) (p : String) :
    ∃ q, normalizeRoot roots canonical p = some q ∧ normalizeRoot roots canonical q = some q := by
  by_cases h0 : pathSegs p = []
  · refine ⟨p, ?_, ?_⟩ <;>
      · unfold normalizeRoot
        rw [if_pos h0]
  · obtain ⟨rest, hq, hrt⟩ := normalizeRoot_some roots canonical hc1 hc2 hc3 p h0
    refine ⟨_, hq, ?_⟩
    unfold normalizeRoot
    rw [hrt, if_neg (List.cons_ne_nil _ _),
      stripKnownRoots_canonical roots canonical rest hb1 hb2]

/-! ## C8 -/

/-- **C8**: `normalize_root_prefix` is total (it always returns a value —
the `segs[0]` assignment is never reached with an empty list, so no
exception escapes) and idempotent, for both the Radarr (`movies`) and the
Sonarr (`tv`) variant. -/
theorem normalize_total_idempotent (p : String) :
    (∃ q, radarrNormalize p = some q ∧ radarrNormalize q = some q) ∧
    (∃ q, sonarrNormalize p = some q ∧ sonarrNormalize q = some q) :=
  ⟨normalizeRoot_total_idem _ _ (by decide) (by decide) (by decide) (by decide) (by decide) p,
   normalizeRoot_total_idem _ _ (by decide) (by decide) (by decide) (by decide) (by decide) p⟩

/-! ## C9 -/

/-- **C9** (counterexample to the claim as stated): an input with non-empty
segments that is already in canonical form is returned unchanged, so "only
inputs with no non-empty segments are returned unchanged" is false. -/
theorem normalize_forces_root_cex :
    radarrNormalize "movies/song.mp3" = some "movies/song.mp3" ∧
      pathSegs "movies/song.mp3" ≠ [] := by
  constructor
  · rfl
  · decide

/-- **C9** (amended): for every input with at least one non-empty segment
the first segment of the output is unconditionally rewritten to the
canonical root (`movies` for Radarr, `tv` for Sonarr), even for inputs
under an unrelated root (`music/song.mp3` ↦ `movies/song.mp3`); inputs
with no non-empty segments are returned verbatim. -/
theorem normalize_forces_root (p : String) :
    (pathSegs p = [] → radarrNormalize p = some p ∧ sonarrNormalize p = some p) ∧
    (pathSegs p ≠ [] →
      (∃ q rest, radarrNormalize p = some q ∧ pathSegs q = "movies".data :: rest) ∧
      (∃ q rest, sonarrNormalize p = some q ∧ pathSegs q = "tv".data :: rest)) ∧
    radarrNormalize "music/song.mp3" = some "movies/song.mp3" := by
  refine ⟨?_, ?_, by rfl⟩
  · intro h0
    constructor
    · unfold radarrNormalize normalizeRoot
      rw [if_pos h0]
    · unfold sonarrNormalize normalizeRoot
      rw [if_pos h0]
  · intro h0
    constructor
    · obtain ⟨rest, hq, hrt⟩ :=
        normalizeRoot_some ["movies".data, "films".data] "movies".data
          (by decide) (by decide) (by decide) p h0
      exact ⟨_, rest, hq, hrt⟩
    · obtain ⟨rest, hq, hrt⟩ :=
        normalizeRoot_some ["tv".data, "shows".data] "tv".data
          (by decide) (by decide) (by decide) p h0
      exact ⟨_, rest, hq, hrt⟩

/-- Witness for C9 (amended) at the concrete unrelated-root input. -/
theorem normalize_forces_root_w :
    (∃ q rest, radarrNormalize "music/song.mp3" = some q ∧
        pathSegs q = "movies".data :: rest) ∧
      (∃ q rest, sonarrNormalize "music/song.mp3" = some q ∧
        pathSegs q = "tv".data :: rest) :=
  (normalize_forces_root "music/song.mp3").2.1 (by decide)

/-! ## The deletions map: last qualifying event wins (C4) -/

theorem processRecord_noneCase (P : ScanP) (st : PageState) (rec : HistoryRecord)
    (h : recTime P rec = none) : processRecord P st rec = st := by
  unfold processRecord
  rw [h]

theorem processRecord_someCase (P : ScanP) (st : PageState) (rec : HistoryRecord) (t : Int)
    (h : recTime P rec = some t) : processRecord P st rec = processRecordT P st rec t := by
  unfold processRecord
  rw [h]

theorem processRecordId_noneCase (P : ScanP) (st : PageState) (rec : HistoryRecord)
    (h : intTruthyO (P.getIdRaw rec) = none) :
    processRecordId P st rec = { st with pageHas := true } := by
  unfold processRecordId
  rw [h]

theorem processRecordId_someCase (P : ScanP) (st : PageState) (rec : HistoryRecord) (mid : Int)
    (h : intTruthyO (P.getIdRaw rec) = some mid) :
    processRecordId P st rec =
      if P.getPathRaw rec ≠ "" then
        { st with pageHas := true,
                  dels := odAssign st.dels mid (P.normPathFn (P.getPathRaw rec)) }
      else { st with pageHas := true } := by
  unfold processRecordId
  rw [h]

theorem qualPair_noneCase (P : ScanP) (rec : HistoryRecord)
    (h : recTime P rec = none) : qualPair P rec = none := by
  unfold qualPair
  rw [h]

theorem qualPair_someCase (P : ScanP) (rec : HistoryRecord) (t : Int)
    (h : recTime P rec = some t) :
    qualPair P rec =
      if P.startT ≤ t ∧ t < P.endT ∧ pyLower rec.eventType = P.targetType then qualPairId P rec
      else none := by
  unfold qualPair
  rw [h]

theorem qualPairId_noneCase (P : ScanP) (rec : HistoryRecord)
    (h : intTruthyO (P.getIdRaw rec) = none) : qualPairId P rec = none := by
  unfold qualPairId
  rw [h]

theorem qualPairId_someCase (P : ScanP) (rec : HistoryRecord) (mid : Int)
    (h : intTruthyO (P.getIdRaw rec) = some mid) :
    qualPairId P rec =
      if P.getPathRaw rec ≠ "" then some (mid, P.normPathFn (P.getPathRaw rec)) else none := by
  unfold qualPairId
  rw [h]

theorem lookupD_map_ne (m : List (Int × String)) (k : Int) (v : String) (i : Int)
    (hi : i ≠ k) :
    lookupD (m.map (fun kv => if kv.1 = k then (k, v) else kv)) i = lookupD m i := by
  induction m with
  | nil => rfl
  | cons a m ih =>
    simp only [List.map_cons]
    unfold lookupD at ih ⊢
    by_cases ha : a.1 = k
    · rw [if_pos ha, List.find?_cons_of_neg _ (by simp [Ne.symm hi]),
        List.find?_cons_of_neg _ (by simp [ha, Ne.symm hi])]
      exact ih
    · rw [if_neg ha]
      by_cases hai : a.1 = i
      · rw [List.find?_cons_of_pos _ (by simp [hai]), List.find?_cons_of_pos _ (by simp [hai])]
      · rw [List.find?_cons_of_neg _ (by simp [hai]), List.find?_cons_of_neg _ (by simp [hai])]
        exact ih

theorem lookupD_map_eq (m : List (Int × String)) (k : Int) (v : String)
    (hk : m.any (fun kv => kv.1 = k) = true) :
    lookupD (m.map (fun kv => if kv.1 = k then (k, v) else kv)) k = some v := by
  induction m with
  | nil => simp at hk
  | cons a m ih =>
    simp only [List.map_cons]
    by_cases ha : a.1 = k
    · rw [if_pos ha]
      unfold lookupD
      rw [List.find?_cons_of_pos _ (by simp)]
      rfl
    · rw [if_neg ha]
      unfold lookupD
      rw [List.find?_cons_of_neg _ (by simp [ha])]
      have hk' : m.any (fun kv => kv.1 = k) = true := by
        rcases List.any_eq_true.mp hk with ⟨x, hx, hxk⟩
        rcases List.mem_cons.mp hx with h | h
        · exact absurd (by rw [← h]; simpa using hxk) ha
        · exact List.any_eq_true.mpr ⟨x, h, hxk⟩
      exact ih hk'

theorem lookupD_append_single (m : List (Int × String)) (k : Int) (v : String)
    (hk : ¬ m.any (fun kv => kv.1 = k) = true) (i : Int) :
    lookupD (m ++ [(k, v)]) i = if i = k then some v else lookupD m i := by
  induction m with
  | nil =>
    simp only [List.nil_append]
    unfold lookupD
    by_cases hi : i = k
    · rw [List.find?_cons_of_pos _ (by simp [hi]), if_pos hi]
      rfl
    · rw [List.find?_cons_of_neg _ (by simp [Ne.symm hi]), if_neg hi]
  | cons a m ih =>
    have hk' : ¬ m.any (fun kv => kv.1 = k) = true := by
      intro h
      exact hk (by
        rcases List.any_eq_true.mp h with ⟨x, hx, hxk⟩
        exact List.any_eq_true.mpr ⟨x, List.mem_cons_of_mem _ hx, hxk⟩)
    have hak : ¬ a.1 = k := by
      intro h
      exact hk (List.any_eq_true.mpr ⟨a, List.mem_cons_self _ _, by simpa using h⟩)
    simp only [List.cons_append]
    unfold lookupD at ih ⊢
    by_cases hai : a.1 = i
    · rw [List.find?_cons_of_pos _ (by simp [hai]), List.find?_cons_of_pos _ (by simp [hai])]
      have hik : ¬ i = k := by
        intro h
        exact hak (by rw [hai, h])
      rw [if_neg hik]
    · rw [List.find?_cons_of_neg _ (by simp [hai]), List.find?_cons_of_neg _ (by simp [hai])]
      exact ih hk'

theorem lookupD_odAssign (m : List (Int × String)) (k : Int) (v : String) (i : Int) :
    lookupD (odAssign m k v) i = if i = k then some v else lookupD m i := by
  unfold odAssign
  by_cases hk : m.any (fun kv => kv.1 = k) = true
  · rw [if_pos hk]
    by_cases hi : i = k
    · rw [if_pos hi, hi]
      exact lookupD_map_eq m k v hk
    · rw [if_neg hi]
      exact lookupD_map_ne m k v i hi
  · rw [if_neg hk]
    exact lookupD_append_single m k v hk i

theorem processRecord_dels (P : ScanP) (st : PageState) (rec : HistoryRecord) :
    (processRecord P st rec).dels =
      match qualPair P rec with
      | some kv => odAssign st.dels kv.1 kv.2
      | none => st.dels := by
  rcases ht : recTime P rec with _ | t
  · rw [processRecord_noneCase P st rec ht, qualPair_noneCase P rec ht]
  · rw [processRecord_someCase P st rec t ht, qualPair_someCase P rec t ht]
    unfold processRecordT
    by_cases hw : P.startT ≤ t ∧ t < P.endT
    · rw [if_pos hw]
      by_cases he : pyLower rec.eventType = P.targetType
      · rw [if_pos he, if_pos ⟨hw.1, hw.2, he⟩]
        rcases hid : intTruthyO (P.getIdRaw rec) with _ | mid
        · rw [processRecordId_noneCase P st rec hid, qualPairId_noneCase P rec hid]
        · rw [processRecordId_someCase P st rec mid hid, qualPairId_someCase P rec mid hid]
          by_cases hp : P.getPathRaw rec ≠ ""
          · rw [if_pos hp, if_pos hp]
          · rw [if_neg hp, if_neg hp]
      · rw [if_neg he, if_neg (show ¬ (P.startT ≤ t ∧ t < P.endT ∧
            pyLower rec.eventType = P.targetType) from fun hcon => he hcon.2.2)]
    · rw [if_neg hw, if_neg (show ¬ (P.startT ≤ t ∧ t < P.endT ∧
          pyLower rec.eventType = P.targetType) from fun hcon => hw ⟨hcon.1, hcon.2.1⟩)]
      by_cases ho : t < P.startT
      · rw [if_pos ho]
      · rw [if_neg ho]

theorem processRecord_dels_none (P : ScanP) (st : PageState) (rec : HistoryRecord)
    (hq : qualPair P rec = none) : (processRecord P st rec).dels = st.dels := by
  have hd := processRecord_dels P st rec
  rw [hq] at hd
  exact hd

theorem processRecord_dels_some (P : ScanP) (st : PageState) (rec : HistoryRecord)
    (kv : Int × String) (hq : qualPair P rec = some kv) :
    (processRecord P st rec).dels = odAssign st.dels kv.1 kv.2 := by
  have hd := processRecord_dels P st rec
  rw [hq] at hd
  exact hd

theorem foldl_processRecord_dels (P : ScanP) (recs : List HistoryRecord) :
    ∀ st : PageState,
      (recs.foldl (processRecord P) st).dels =
        (qualList P recs).foldl (fun m kv => odAssign m kv.1 kv.2) st.dels := by
  induction recs with
  | nil => intro st; rfl
  | cons r rs ih =>
    intro st
    simp only [List.foldl_cons]
    rw [ih]
    unfold qualList
    rw [List.filterMap_cons]
    rcases hq : qualPair P r with _ | kv
    · rw [processRecord_dels_none P st r hq]
    · rw [processRecord_dels_some P st r kv hq]
      simp only [List.foldl_cons]

theorem lookupD_foldl_odAssign (l : List (Int × String)) :
    ∀ (m : List (Int × String)) (k : Int),
      lookupD (l.foldl (fun m kv => odAssign m kv.1 kv.2) m) k =
        match l.reverse.find? (fun kv => kv.1 = k) with
        | some kv => some kv.2
        | none => lookupD m k := by
  induction l with
  | nil => intro m k; rfl
  | cons kv l ih =>
    intro m k
    simp only [List.foldl_cons]
    rw [ih, List.reverse_cons, List.find?_append]
    rcases hfind : l.reverse.find? (fun x => x.1 = k) with _ | kv'
    · rw [hfind, Option.none_or]
      by_cases hik : kv.1 = k
      · rw [List.find?_cons_of_pos _ (by simp [hik])]
        show lookupD (odAssign m kv.1 kv.2) k = some kv.2
        rw [lookupD_odAssign, if_pos hik.symm]
      · rw [List.find?_cons_of_neg _ (by simp [hik]), List.find?_nil]
        show lookupD (odAssign m kv.1 kv.2) k = lookupD m k
        rw [lookupD_odAssign, if_neg (fun h => hik h.symm)]
    · rw [hfind]
      rfl

theorem inWindowB_noneCase (P : ScanP) (rec : HistoryRecord) (h : recTime P rec = none) :
    inWindowB P rec = false := by
  unfold inWindowB
  rw [h]

theorem inWindowB_someCase (P : ScanP) (rec : HistoryRecord) (t : Int)
    (h : recTime P rec = some t) :
    inWindowB P rec = decide (P.startT ≤ t ∧ t < P.endT) := by
  unfold inWindowB
  rw [h]

theorem olderB_noneCase (P : ScanP) (rec : HistoryRecord) (h : recTime P rec = none) :
    olderB P rec = false := by
  unfold olderB
  rw [h]

theorem olderB_someCase (P : ScanP) (rec : HistoryRecord) (t : Int)
    (h : recTime P rec = some t) :
    olderB P rec = decide (t < P.startT) := by
  unfold olderB
  rw [h]

theorem processRecord_pageHas (P : ScanP) (st : PageState) (rec : HistoryRecord) :
    (processRecord P st rec).pageHas = (st.pageHas || inWindowB P rec) := by
  rcases ht : recTime P rec with _ | t
  · rw [processRecord_noneCase P st rec ht, inWindowB_noneCase P rec ht, Bool.or_false]
  · rw [processRecord_someCase P st rec t ht, inWindowB_someCase P rec t ht]
    unfold processRecordT
    by_cases hw : P.startT ≤ t ∧ t < P.endT
    · rw [if_pos hw, decide_eq_true hw, Bool.or_true]
      by_cases he : pyLower rec.eventType = P.targetType
      · rw [if_pos he]
        rcases hid : intTruthyO (P.getIdRaw rec) with _ | mid
        · rw [processRecordId_noneCase P st rec hid]
        · rw [processRecordId_someCase P st rec mid hid]
          by_cases hp : P.getPathRaw rec ≠ ""
          · rw [if_pos hp]
          · rw [if_neg hp]
      · rw [if_neg he]
    · rw [if_neg hw, decide_eq_false hw, Bool.or_false]
      by_cases ho : t < P.startT
      · rw [if_pos ho]
      · rw [if_neg ho]

theorem processRecord_foundOlder (P : ScanP) (st : PageState) (rec : HistoryRecord) :
    (processRecord P st rec).foundOlder = (st.foundOlder || olderB P rec) := by
  rcases ht : recTime P rec with _ | t
  · rw [processRecord_noneCase P st rec ht, olderB_noneCase P rec ht, Bool.or_false]
  · rw [processRecord_someCase P st rec t ht, olderB_someCase P rec t ht]
    unfold processRecordT
    by_cases hw : P.startT ≤ t ∧ t < P.endT
    · rw [if_pos hw, decide_eq_false (not_lt.mpr hw.1), Bool.or_false]
      by_cases he : pyLower rec.eventType = P.targetType
      · rw [if_pos he]
        rcases hid : intTruthyO (P.getIdRaw rec) with _ | mid
        · rw [processRecordId_noneCase P st rec hid]
        · rw [processRecordId_someCase P st rec mid hid]
          by_cases hp : P.getPathRaw rec ≠ ""
          · rw [if_pos hp]
          · rw [if_neg hp]
      · rw [if_neg he]
    · rw [if_neg hw]
      by_cases ho : t < P.startT
      · rw [if_pos ho, decide_eq_true ho, Bool.or_true]
      · rw [if_neg ho, decide_eq_false ho, Bool.or_false]

theorem foldl_processRecord_pageHas (P : ScanP) (recs : List HistoryRecord) :
    ∀ st : PageState,
      (recs.foldl (processRecord P) st).pageHas = (st.pageHas || recs.any (inWindowB P)) := by
  induction recs with
  | nil => intro st; simp
  | cons r rs ih =>
    intro st
    simp only [List.foldl_cons, List.any_cons]
    rw [ih, processRecord_pageHas, Bool.or_assoc]

theorem foldl_processRecord_foundOlder (P : ScanP) (recs : List HistoryRecord) :
    ∀ st : PageState,
      (recs.foldl (processRecord P) st).foundOlder =
        (st.foundOlder || recs.any (olderB P)) := by
  induction recs with
  | nil => intro st; simp
  | cons r rs ih =>
    intro st
    simp only [List.foldl_cons, List.any_cons]
    rw [ih, processRecord_foundOlder, Bool.or_assoc]

theorem processPage_pageHas (P : ScanP) (recs : List HistoryRecord)
    (m : List (Int × String)) (fOld : Bool) :
    (processPage P recs m fOld).pageHas = recs.any (inWindowB P) := by
  unfold processPage
  rw [foldl_processRecord_pageHas]
  rfl

theorem processPage_foundOlder (P : ScanP) (recs : List HistoryRecord)
    (m : List (Int × String)) (fOld : Bool) :
    (processPage P recs m fOld).foundOlder = (fOld || recs.any (olderB P)) := by
  unfold processPage
  rw [foldl_processRecord_foundOlder]

theorem scanLoop_dels (P : ScanP) (feed : Nat → List HistoryRecord) :
    ∀ (fuel page : Nat) (m : List (Int × String)) (fOld : Bool),
      (scanLoop P feed fuel page m fOld).1 =
        (qualList P (processedRecords P feed fuel page fOld)).foldl
          (fun m kv => odAssign m kv.1 kv.2) m := by
  intro fuel
  induction fuel with
  | zero => intro page m fOld; rfl
  | succ fuel ih =>
    intro page m fOld
    have hfo : (processPage P (feed page) m fOld).foundOlder =
        (processPage P (feed page) [] fOld).foundOlder := by
      rw [processPage_foundOlder, processPage_foundOlder]
    have hph : (processPage P (feed page) m fOld).pageHas =
        (processPage P (feed page) [] fOld).pageHas := by
      rw [processPage_pageHas, processPage_pageHas]
    unfold scanLoop processedRecords
    by_cases h0 : feed page = []
    · rw [if_pos h0, if_pos h0]
      rfl
    · rw [if_neg h0, if_neg h0]
      by_cases h1 : (feed page).length < 1000
      · rw [if_pos h1, if_pos h1]
        exact foldl_processRecord_dels P (feed page) ⟨m, false, fOld⟩
      · rw [if_neg h1, if_neg h1]
        by_cases h2 : (processPage P (feed page) m fOld).foundOlder = true ∧
            ¬ (processPage P (feed page) m fOld).pageHas = true
        · rw [if_pos h2, if_pos (by rw [← hfo, ← hph]; exact h2)]
          exact foldl_processRecord_dels P (feed page) ⟨m, false, fOld⟩
        · rw [if_neg h2, if_neg (by rw [← hfo, ← hph]; exact h2)]
          rw [ih]
          unfold qualList
          rw [List.filterMap_append, List.foldl_append, hfo]
          congr 1
          exact foldl_processRecord_dels P (feed page) ⟨m, false, fOld⟩

/-! ## C4 -/

/-- **C4** (counterexample to the claim as stated): two qualifying deletion
events for entity id 7 inside the window; the final map binds 7 to the
path of the second-seen event, not the first-seen one. -/
theorem dedup_first_seen_cex :
    lookupD (findAllDeletions (radarrScanP toyParse 0 10)
      (fun p => if p = 1 then
        [{ date := some "1", eventType := "MovieFileDeleted", movieId := some 7,
           dataPath := some "/movies/A/a.mkv" },
         { date := some "2", eventType := "MovieFileDeleted", movieId := some 7,
           dataPath := some "/movies/A/b.mkv" }] else []) 3).1 7 = some "movies/A/b.mkv" ∧
    firstQualPath (radarrScanP toyParse 0 10)
      (pagesThrough (fun p => if p = 1 then
        [{ date := some "1", eventType := "MovieFileDeleted", movieId := some 7,
           dataPath := some "/movies/A/a.mkv" },
         { date := some "2", eventType := "MovieFileDeleted", movieId := some 7,
           dataPath := some "/movies/A/b.mkv" }] else []) 1) 7 = some "movies/A/a.mkv" ∧
    ("movies/A/b.mkv" : String) ≠ "movies/A/a.mkv" := by
  refine ⟨by rfl, by rfl, by decide⟩

/-- **C4** (amended): on duplicate qualifying deletion events for the same
entity id, the `OrderedDict` assignment overwrites the stored value, so the
final `deletions` map binds each id to the path of the *last-seen*
qualifying event among the records the scan processed (the map keeps the
first-insertion position, but not the first-seen path). -/
theorem dedup_last_seen (P : ScanP) (feed : Nat → List HistoryRecord) (fuel : Nat) (k : Int) :
    lookupD (findAllDeletions P feed fuel).1 k =
      lastQualPath P (processedRecords P feed fuel 1 false) k := by
  unfold findAllDeletions lastQualPath
  rw [scanLoop_dels, lookupD_foldl_odAssign]
  rcases hf : (qualList P (processedRecords P feed fuel 1 false)).reverse.find?
      (fun kv => kv.1 = k) with _ | kv
  · rw [hf]
    rfl
  · rw [hf]
    rfl

/-! ## C6 -/

theorem qualPair_isSome_iff (P : ScanP) (rec : HistoryRecord) :
    (qualPair P rec).isSome = true ↔
      (inWindowB P rec = true ∧ pyLower rec.eventType = P.targetType ∧
        (intTruthyO (P.getIdRaw rec)).isSome = true ∧ P.getPathRaw rec ≠ "") := by
  rcases ht : recTime P rec with _ | t
  · rw [qualPair_noneCase P rec ht, inWindowB_noneCase P rec ht]
    simp
  · rw [qualPair_someCase P rec t ht, inWindowB_someCase P rec t ht]
    by_cases hcond : P.startT ≤ t ∧ t < P.endT ∧ pyLower rec.eventType = P.targetType
    · rw [if_pos hcond, decide_eq_true ⟨hcond.1, hcond.2.1⟩]
      rcases hid : intTruthyO (P.getIdRaw rec) with _ | mid
      · rw [qualPairId_noneCase P rec hid]
        simp
      · rw [qualPairId_someCase P rec mid hid]
        by_cases hp : P.getPathRaw rec ≠ ""
        · rw [if_pos hp]
          simp [hcond.2.2, hp]
        · rw [if_neg hp]
          simp [hp]
    · rw [if_neg hcond]
      simp only [Option.isSome_none]
      constructor
      · intro h
        cases h
      · rintro ⟨hw, hty, -, -⟩
        exact absurd ⟨(of_decide_eq_true hw).1, (of_decide_eq_true hw).2, hty⟩ hcond

/-- A concrete history record whose kind contains "deleted" but is not the
exact `MovieFileDeleted` kind. -/
def cexRec6 : HistoryRecord :=
  { date := some "1", eventType := "FileDeleted", movieId := some 7,
    dataPath := some "/movies/A/a.mkv" }

/-- **C6** (counterexample to the claim as stated): an in-window record with
kind `FileDeleted` (which contains the substring "deleted"
case-insensitively) and a valid id and path does NOT pass the deletion
filter — the `deletions` map stays empty. -/
theorem deletion_filter_cex :
    containsDeletedSub cexRec6.eventType = true ∧
    inWindowB (radarrScanP toyParse 0 10) cexRec6 = true ∧
    (intTruthyO (radarrGetId cexRec6)).isSome = true ∧
    radarrGetPath cexRec6 ≠ "" ∧
    (processRecord (radarrScanP toyParse 0 10) ⟨[], false, false⟩ cexRec6).dels = [] := by
  refine ⟨by decide, by decide, by decide, by decide, by rfl⟩

/-- **C6** (amended): a history record contributes a deletion event iff its
lowered event kind *equals exactly* `"moviefiledeleted"` (Radarr) /
`"episodefiledeleted"` (Sonarr) — not a case-insensitive substring match on
"deleted" — and it is in-window with a truthy id and path; and the
per-record map update is exactly governed by this qualification. -/
theorem deletion_filter_exact_match (parse : String → Option Int) (s e : Int)
    (rec : HistoryRecord) :
    (∀ (P : ScanP) (st : PageState),
      (processRecord P st rec).dels =
        match qualPair P rec with
        | some kv => odAssign st.dels kv.1 kv.2
        | none => st.dels) ∧
    ((qualPair (radarrScanP parse s e) rec).isSome = true ↔
      (inWindowB (radarrScanP parse s e) rec = true ∧
        pyLower rec.eventType = "moviefiledeleted" ∧
        (intTruthyO (radarrGetId rec)).isSome = true ∧ radarrGetPath rec ≠ "")) ∧
    ((qualPair (sonarrScanP parse s e) rec).isSome = true ↔
      (inWindowB (sonarrScanP parse s e) rec = true ∧
        pyLower rec.eventType = "episodefiledeleted" ∧
        (intTruthyO (sonarrGetId rec)).isSome = true ∧ sonarrGetPath rec ≠ "")) :=
  ⟨fun P st => processRecord_dels P st rec,
   qualPair_isSome_iff (radarrScanP parse s e) rec,
   qualPair_isSome_iff (sonarrScanP parse s e) rec⟩

/-! ## C7 -/

/-- **C7** (counterexample to the claim as stated): a non-empty input in
which no line survives the folder filter makes `recovery_plan.main` exit
with code 2, not 0, although zero qualifying records is not a
configuration error. -/
theorem zero_match_exit_cex :
    planMainExit (some "tv") ["movies/a.mkv"] = 2 ∧
    (["movies/a.mkv"] : List String).countP
      (fun l => pyStrip l ≠ "" ∧ folderMatcher (some "tv") (pyStrip l) = true) = 0 := by
  refine ⟨by decide, by decide⟩

/-- **C7** (amended): the deletion scanners treat zero qualifying records
as success — `radarr_deleted.main` with a truthy API key and no deletions
writes both output files empty and exits 0 — but `recovery_plan.main`
exits 2 whenever no input line survives the blank/folder filters
(`n_read == 0`), even on a non-empty input. -/
theorem zero_record_outcomes (apiKey : Option String) (probe : Int → Bool × Option String)
    (folder : Option String) (lines : List String)
    (hkey : strOTruthy apiKey = true) (hne : lines ≠ [])
    (hzero : lines.countP
      (fun l => pyStrip l ≠ "" ∧ folderMatcher folder (pyStrip l) = true) = 0) :
    radarrMain apiKey [] probe = ⟨0, [], []⟩ ∧ planMainExit folder lines = 2 := by
  constructor
  · unfold radarrMain
    rw [if_neg (by simp [hkey]), if_pos rfl]
  · unfold planMainExit
    rw [if_neg (by simp [hne] : ¬ lines.length = 0), if_pos hzero]

/-- Witness for C7 (amended) at concrete inputs. -/
theorem zero_record_outcomes_w :
    radarrMain (some "key") [] (fun _ => (false, none)) = ⟨0, [], []⟩ ∧
      planMainExit (some "tv") ["movies/a.mkv"] = 2 :=
  zero_record_outcomes (some "key") (fun _ => (false, none)) (some "tv") ["movies/a.mkv"]
    (by decide) (by decide) (by decide)

/-! ## The pagination stop conditions (C5) -/

theorem olderB_true_iff (P : ScanP) (rec : HistoryRecord) :
    olderB P rec = true ↔ ∃ t, recTime P rec = some t ∧ t < P.startT := by
  rcases ht : recTime P rec with _ | t
  · rw [olderB_noneCase P rec ht]
    simp
  · rw [olderB_someCase P rec t ht]
    rw [decide_eq_true_eq]
    constructor
    · intro h
      exact ⟨t, rfl, h⟩
    · rintro ⟨t', ht', hlt⟩
      rw [Option.some.injEq] at ht'
      rw [ht']
      exact hlt

theorem inWindowB_true_iff (P : ScanP) (rec : HistoryRecord) :
    inWindowB P rec = true ↔ ∃ t, recTime P rec = some t ∧ P.startT ≤ t ∧ t < P.endT := by
  rcases ht : recTime P rec with _ | t
  · rw [inWindowB_noneCase P rec ht]
    simp
  · rw [inWindowB_someCase P rec t ht]
    rw [decide_eq_true_eq]
    constructor
    · intro h
      exact ⟨t, rfl, h⟩
    · rintro ⟨t', ht', hlt⟩
      rw [Option.some.injEq] at ht'
      rw [ht']
      exact hlt

theorem listMin?_le (l : List Int) (x : Int) (hx : x ∈ l) :
    ∃ t, listMin? l = some t ∧ t ≤ x := by
  induction l with
  | nil => cases hx
  | cons a l ih =>
    unfold listMin?
    rcases hm : listMin? l with _ | y
    · rcases List.mem_cons.mp hx with h | h
      · exact ⟨a, rfl, by rw [h]⟩
      · rcases ih h with ⟨t, htt, -⟩
        rw [hm] at htt
        cases htt
    · rcases List.mem_cons.mp hx with h | h
      · exact ⟨min a y, rfl, by rw [h]; exact min_le_left _ _⟩
      · rcases ih h with ⟨t, htt, hle⟩
        rw [hm, Option.some.injEq] at htt
        exact ⟨min a y, rfl, le_trans (min_le_right _ _) (by rw [htt]; exact hle)⟩

theorem listMin?_mem (l : List Int) (t : Int) (h : listMin? l = some t) : t ∈ l := by
  induction l generalizing t with
  | nil => cases h
  | cons a l ih =>
    unfold listMin? at h
    rcases hm : listMin? l with _ | y
    · rw [hm, Option.some.injEq] at h
      rw [← h]
      exact List.mem_cons_self _ _
    · rw [hm, Option.some.injEq] at h
      rcases le_total a y with hle | hle
      · rw [← h, min_eq_left hle]
        exact List.mem_cons_self _ _
      · rw [← h, min_eq_right hle]
        exact List.mem_cons_of_mem _ (ih y hm)

theorem scanFoundOlder_iff (P : ScanP) (feed : Nat → List HistoryRecord) :
    ∀ p, scanFoundOlder P feed p = true ↔
      ∃ rec ∈ pagesThrough feed p, olderB P rec = true := by
  intro p
  induction p with
  | zero =>
    unfold scanFoundOlder pagesThrough
    simp
  | succ p ih =>
    unfold scanFoundOlder pagesThrough
    rw [processPage_foundOlder, Bool.or_eq_true, List.any_eq_true, ih]
    constructor
    · rintro (⟨rec, hm, ho⟩ | ⟨rec, hm, ho⟩)
      · exact ⟨rec, List.mem_append_left _ hm, ho⟩
      · exact ⟨rec, List.mem_append_right _ hm, ho⟩
    · rintro ⟨rec, hm, ho⟩
      rcases List.mem_append.mp hm with h | h
      · exact Or.inl ⟨rec, h, ho⟩
      · exact Or.inr ⟨rec, h, ho⟩

theorem breaksAfterPage_flags (P : ScanP) (feed : Nat → List HistoryRecord) (p : Nat)
    (h0 : feed p ≠ []) :
    breaksAfterPage P feed p =
      (decide ((feed p).length < 1000) ||
        ((scanFoundOlder P feed (p - 1) || (feed p).any (olderB P)) &&
          !((feed p).any (inWindowB P)))) := by
  unfold breaksAfterPage
  rw [if_neg h0, processPage_foundOlder, processPage_pageHas]

theorem pagesThrough_split (feed : Nat → List HistoryRecord) (p : Nat) (hp : 1 ≤ p) :
    pagesThrough feed p = pagesThrough feed (p - 1) ++ feed p := by
  have h : p - 1 + 1 = p := Nat.succ_pred_eq_of_pos hp
  calc pagesThrough feed p = pagesThrough feed (p - 1 + 1) := by rw [h]
    _ = pagesThrough feed (p - 1) ++ feed (p - 1 + 1) := rfl
    _ = pagesThrough feed (p - 1) ++ feed p := by rw [h]

theorem breaksAfterPage_iff_conditions (P : ScanP) (feed : Nat → List HistoryRecord) (p : Nat)
    (hp : 1 ≤ p)
    (hparse : ∀ rec ∈ pagesThrough feed p, (recTime P rec).isSome = true)
    (hsorted : ((pagesThrough feed p).filterMap (recTime P)).Pairwise (fun a b => b ≤ a)) :
    (breaksAfterPage P feed p = true ↔
      ((feed p).length < 1000 ∨
        ((∃ t, listMin? ((feed p).filterMap (recTime P)) = some t ∧ t < P.startT) ∧
          (feed p).all (fun rec => !(inWindowB P rec)) = true))) := by
  have hsplit := pagesThrough_split feed p hp
  by_cases h0 : feed p = []
  · unfold breaksAfterPage
    rw [if_pos h0]
    simp [h0]
  · rw [breaksAfterPage_flags P feed p h0]
    by_cases h1 : (feed p).length < 1000
    · simp [h1]
    · rw [decide_eq_false h1, Bool.false_or]
      obtain ⟨rec0, hrec0⟩ : ∃ rec0, rec0 ∈ feed p := List.exists_mem_of_ne_nil _ h0
      obtain ⟨u, hu⟩ : ∃ u, recTime P rec0 = some u := by
        have hps := hparse rec0 (by rw [hsplit]; exact List.mem_append_right _ hrec0)
        rcases hre : recTime P rec0 with _ | u
        · rw [hre] at hps
          cases hps
        · exact ⟨u, rfl⟩
      have huPage : u ∈ (feed p).filterMap (recTime P) :=
        List.mem_filterMap.mpr ⟨rec0, hrec0, hu⟩
      constructor
      · intro h
        rw [Bool.and_eq_true] at h
        rcases h with ⟨hfo, hnw⟩
        right
        refine ⟨?_, ?_⟩
        · rw [Bool.or_eq_true] at hfo
          rcases hfo with hpre | hcur
          · rcases (scanFoundOlder_iff P feed (p - 1)).mp hpre with ⟨rec, hrm, hro⟩
            rcases (olderB_true_iff P rec).mp hro with ⟨t', hrt, hlt⟩
            have ht'mem : t' ∈ (pagesThrough feed (p - 1)).filterMap (recTime P) :=
              List.mem_filterMap.mpr ⟨rec, hrm, hrt⟩
            have hsorted' := hsorted
            rw [hsplit, List.filterMap_append] at hsorted'
            have hge := ((List.pairwise_append.mp hsorted').2.2) t' ht'mem u huPage
            rcases listMin?_le _ u huPage with ⟨tm, htm, hle⟩
            exact ⟨tm, htm, lt_of_le_of_lt (le_trans hle hge) hlt⟩
          · rcases List.any_eq_true.mp hcur with ⟨rec, hrm, hro⟩
            rcases (olderB_true_iff P rec).mp hro with ⟨t', hrt, hlt⟩
            have ht'mem : t' ∈ (feed p).filterMap (recTime P) :=
              List.mem_filterMap.mpr ⟨rec, hrm, hrt⟩
            rcases listMin?_le _ t' ht'mem with ⟨tm, htm, hle⟩
            exact ⟨tm, htm, lt_of_le_of_lt hle hlt⟩
        · rw [Bool.not_eq_true'] at hnw
          rw [List.all_eq_true]
          intro rec hrm
          have hf := List.any_eq_false.mp hnw rec hrm
          rcases Bool.dichotomy (inWindowB P rec) with hb | hb
          · rw [hb]
            rfl
          · exact absurd hb hf
      · intro h
        rcases h with h | ⟨⟨t, hmin, hlt⟩, hall⟩
        · exact absurd h h1
        · rw [Bool.and_eq_true]
          constructor
          · rw [Bool.or_eq_true]
            right
            rw [List.any_eq_true]
            have htmem := listMin?_mem _ t hmin
            rcases List.mem_filterMap.mp htmem with ⟨rec, hrm, hrt⟩
            exact ⟨rec, hrm, (olderB_true_iff P rec).mpr ⟨t, hrt, hlt⟩⟩
          · rw [Bool.not_eq_true']
            rw [List.any_eq_false]
            intro rec hrm
            have ha := List.all_eq_true.mp hall rec hrm
            rcases Bool.dichotomy (inWindowB P rec) with hb | hb
            · simp [hb]
            · rw [hb] at ha
              cases ha

theorem scanLoop_stop_iff (P : ScanP) (feed : Nat → List HistoryRecord) :
    ∀ (fuel page : Nat) (m : List (Int × String)) (q : Nat), 1 ≤ page →
      ((scanLoop P feed fuel page m (scanFoundOlder P feed (page - 1))).2 = some q ↔
        (page ≤ q ∧ q < page + fuel ∧ breaksAfterPage P feed q = true ∧
          ∀ r, page ≤ r → r < q → breaksAfterPage P feed r = false)) := by
  intro fuel
  induction fuel with
  | zero =>
    intro page m q hp
    constructor
    · intro h
      simp [scanLoop] at h
    · rintro ⟨h1, h2, -, -⟩
      exfalso
      omega
  | succ fuel ih =>
    intro page m q hp
    have hpred : page - 1 + 1 = page := Nat.succ_pred_eq_of_pos hp
    have hsuc : ∀ p', scanFoundOlder P feed (p' + 1) =
        (processPage P (feed (p' + 1)) [] (scanFoundOlder P feed p')).foundOlder :=
      fun p' => rfl
    have hfos : (processPage P (feed page) m (scanFoundOlder P feed (page - 1))).foundOlder =
        scanFoundOlder P feed page := by
      rw [processPage_foundOlder]
      conv_rhs => rw [← hpred, hsuc, processPage_foundOlder, hpred]
    unfold scanLoop
    by_cases h0 : feed page = []
    · rw [if_pos h0]
      have hbp : breaksAfterPage P feed page = true := by
        unfold breaksAfterPage
        rw [if_pos h0]
      constructor
      · intro h
        have hq : page = q := by simpa using h
        subst hq
        exact ⟨le_refl _, by omega, hbp, fun r hr1 hr2 => absurd hr1 (by omega)⟩
      · rintro ⟨h1, h2, hbq, hall⟩
        rcases Nat.eq_or_lt_of_le h1 with he | hlt
        · simp [he]
        · exact absurd (hall page (le_refl _) hlt) (by simp [hbp])
    · rw [if_neg h0]
      by_cases h1 : (feed page).length < 1000
      · rw [if_pos h1]
        have hbp : breaksAfterPage P feed page = true := by
          unfold breaksAfterPage
          rw [if_neg h0, decide_eq_true h1]
          simp
        constructor
        · intro h
          have hq : page = q := by simpa using h
          subst hq
          exact ⟨le_refl _, by omega, hbp, fun r hr1 hr2 => absurd hr1 (by omega)⟩
        · rintro ⟨h1', h2', hbq, hall⟩
          rcases Nat.eq_or_lt_of_le h1' with he | hlt
          · simp [he]
          · exact absurd (hall page (le_refl _) hlt) (by simp [hbp])
      · rw [if_neg h1]
        by_cases h2 : (processPage P (feed page) m
            (scanFoundOlder P feed (page - 1))).foundOlder = true ∧
            ¬ (processPage P (feed page) m (scanFoundOlder P feed (page - 1))).pageHas = true
        · rw [if_pos h2]
          have hbp : breaksAfterPage P feed page = true := by
            rw [breaksAfterPage_flags P feed page h0]
            have hfo2 : (scanFoundOlder P feed (page - 1) || (feed page).any (olderB P)) = true := by
              rw [← processPage_foundOlder P (feed page) m (scanFoundOlder P feed (page - 1))]
              exact h2.1
            have hph2 : (feed page).any (inWindowB P) = false := by
              rw [← processPage_pageHas P (feed page) m (scanFoundOlder P feed (page - 1))]
              simpa using h2.2
            rw [hfo2, hph2]
            simp
          constructor
          · intro h
            have hq : page = q := by simpa using h
            subst hq
            exact ⟨le_refl _, by omega, hbp, fun r hr1 hr2 => absurd hr1 (by omega)⟩
          · rintro ⟨h1', h2', hbq, hall⟩
            rcases Nat.eq_or_lt_of_le h1' with he | hlt
            · simp [he]
            · exact absurd (hall page (le_refl _) hlt) (by simp [hbp])
        · rw [if_neg h2]
          rw [hfos]
          have hih := ih (page + 1)
            (processPage P (feed page) m (scanFoundOlder P feed (page - 1))).dels q (by omega)
          rw [show page + 1 - 1 = page from rfl] at hih
          rw [hih]
          have hbp : breaksAfterPage P feed page = false := by
            rw [breaksAfterPage_flags P feed page h0, decide_eq_false h1, Bool.false_or]
            rw [← processPage_foundOlder P (feed page) m (scanFoundOlder P feed (page - 1)),
              ← processPage_pageHas P (feed page) m (scanFoundOlder P feed (page - 1))]
            rcases Bool.dichotomy (processPage P (feed page) m
                (scanFoundOlder P feed (page - 1))).foundOlder with hf | hf
            · rw [hf]
              simp
            · rcases Bool.dichotomy (processPage P (feed page) m
                  (scanFoundOlder P feed (page - 1))).pageHas with hg | hg
              · exact absurd ⟨hf, by simp [hg]⟩ h2
              · rw [hf, hg]
                simp
          constructor
          · rintro ⟨ha, hb, hc, hd⟩
            refine ⟨by omega, by omega, hc, ?_⟩
            intro r hr1 hr2
            rcases Nat.eq_or_lt_of_le hr1 with he | hlt
            · rw [← he]
              exact hbp
            · exact hd r hlt hr2
          · rintro ⟨ha, hb, hc, hd⟩
            have hq : page + 1 ≤ q := by
              rcases Nat.eq_or_lt_of_le ha with he | hlt
              · exfalso
                rw [← he] at hc
                rw [hbp] at hc
                cases hc
              · omega
            exact ⟨hq, by omega, hc, fun r hr1 hr2 => hd r (by omega) hr2⟩

/-- **C5**: in paginated-descending mode the scan stops at a page `p` it
reaches exactly under two conditions: the page returned fewer than the
requested 1000 records (feed exhausted — this also covers an empty page),
or the page's oldest parsed timestamp predates `start_utc` AND the page
contains no record inside `[start_utc, end_utc)`.  The hypotheses say that
every record of pages `1..p` carries a parseable timestamp and that those
timestamps are sorted descending across pages `1..p`; a page that straddles
the window boundary (i.e. still contains an in-window record) does not
satisfy the right-hand side and hence does not stop the scan. -/
theorem scan_stop_two_conditions (P : ScanP) (feed : Nat → List HistoryRecord)
    (fuel p : Nat) (hp : 1 ≤ p) (hfuel : p ≤ fuel)
    (hreach : ∀ r, 1 ≤ r → r < p → breaksAfterPage P feed r = false)
    (hparse : ∀ rec ∈ pagesThrough feed p, (recTime P rec).isSome = true)
    (hsorted : ((pagesThrough feed p).filterMap (recTime P)).Pairwise (fun a b => b ≤ a)) :
    ((findAllDeletions P feed fuel).2 = some p ↔
      ((feed p).length < 1000 ∨
        ((∃ t, listMin? ((feed p).filterMap (recTime P)) = some t ∧ t < P.startT) ∧
          (feed p).all (fun rec => !(inWindowB P rec)) = true))) := by
  have h := scanLoop_stop_iff P feed fuel 1 [] p (le_refl 1)
  have h0 : scanFoundOlder P feed (1 - 1) = false := rfl
  rw [h0] at h
  unfold findAllDeletions
  rw [h, ← breaksAfterPage_iff_conditions P feed p hp hparse hsorted]
  constructor
  · rintro ⟨-, -, hb, -⟩
    exact hb
  · intro hb
    exact ⟨hp, by omega, hb, hreach⟩

/-- Concrete one-page feed for the C5 witness: a single in-window deletion
record, so the scan stops at page 1 by the short-page condition. -/
def feedW5 : Nat → List HistoryRecord := fun p =>
  if p = 1 then
    [{ date := some "1", eventType := "MovieFileDeleted", movieId := some 7,
       dataPath := some "/movies/A/a.mkv" }]
  else []

/-- Witness for C5 at the concrete one-page feed. -/
theorem scan_stop_two_conditions_w :
    (findAllDeletions (radarrScanP toyParse 0 10) feedW5 1).2 = some 1 ↔
      ((feedW5 1).length < 1000 ∨
        ((∃ t, listMin? ((feedW5 1).filterMap (recTime (radarrScanP toyParse 0 10))) = some t ∧
            t < (radarrScanP toyParse 0 10).startT) ∧
          (feedW5 1).all (fun rec => !(inWindowB (radarrScanP toyParse 0 10) rec)) = true)) :=
  scan_stop_two_conditions (radarrScanP toyParse 0 10) feedW5 1 1 (le_refl 1) (le_refl 1)
    (fun r h1 h2 => absurd h2 (by omega))
    (by decide)
    (by decide)
